import Mathlib

/-!
Verification development for the Gemini TTS note-reading plugin
(`src/main.ts`).  The TypeScript source is shallowly embedded:

* strings are `List Char` (`Str`), so that every regex substitution of
  `cleanText` is modelled as an executable scanner with the exact
  leftmost / lazy / greedy semantics of the JavaScript regexes;
* byte buffers are `List Nat`, little-endian fields written byte by byte
  exactly as `pcmToWav` does;
* the plugin's mutable fields (`currentAudio`, `isPlaying`, `isPaused`,
  object URLs, notices, the `audioUrl` local captured by `cleanupAudio`)
  become a `PluginState` record, and `readActiveNote` / `stopPlayback` /
  the audio event listeners become state transformers.

Scanners that jump over a matched span take a fuel argument (the wrapper
passes the input length) so that every definition stays structurally
recursive and kernel-computable.
-/

abbrev Str := List Char

/-- The backtick character (written via its code point, 96). -/
def btick : Char := Char.ofNat 96

/-- JavaScript `\s` for the ASCII range: space, tab, newline, carriage
return, vertical tab, form feed. -/
def isWS (c : Char) : Bool :=
  c = ' ' ∨ c = '\t' ∨ c = '\n' ∨ c = '\r' ∨ c = Char.ofNat 11 ∨ c = Char.ofNat 12

/-- Does `n` occur as a contiguous subsequence of the second argument?
Models JavaScript `String.prototype.includes`. -/
def containsSeq (n : Str) : Str → Bool
  | [] => n.isPrefixOf []
  | c :: rest => n.isPrefixOf (c :: rest) || containsSeq n rest

/-- Last character is a newline (used to know whether the position after a
consumed whitespace run is a line start for the `m`-flag `^`). -/
def lastIsNL (l : Str) : Bool :=
  match l.getLast? with
  | some c => c = '\n'
  | none => false

/-- JavaScript `String.prototype.trim` restricted to ASCII whitespace. -/
def trimWS (s : Str) : Str :=
  ((s.dropWhile isWS).reverse.dropWhile isWS).reverse

/-! ## Text normalizer (`cleanText`, src/main.ts lines 406-445)

Each regex replacement of `cleanText` is one scanner.  All scanners walk
the string left to right exactly as the JavaScript regex engine does:
try a match at the current position, on success emit the replacement and
continue after the match, on failure copy one character and retry. -/

/-- Step 1 of `cleanText`: the front-matter regex
`/^---\n[\s\S]*?\n---(\n|$)/m` (non-global: only the first match is
removed).  `fmFindClose s` finds the lazy closing `\n---` followed by a
consumed `\n` or by the end of input, returning the text after the whole
match. -/
def fmFindClose : Str → Option Str
  | [] => none
  | c :: rest =>
    if c = '\n' ∧ ['-', '-', '-'].isPrefixOf rest then
      if rest.drop 3 = [] then some []
      else if (rest.drop 3).take 1 = ['\n'] then some ((rest.drop 3).drop 1)
      else fmFindClose rest
    else fmFindClose rest

/-- Attempt the front-matter match at one position (which must be a line
start, since the regex has the `m` flag): `^---\n` then the lazy middle
and the closing delimiter. -/
def fmMatchAt (s : Str) : Option Str :=
  if ['-', '-', '-', '\n'].isPrefixOf s then fmFindClose (s.drop 4) else none

/-- Scanner for the front-matter replacement: `atStart` records whether
the current position is the start of the text or just after a `'\n'`
(the positions where the `m`-flag `^` matches). -/
def removeFMAux : Bool → Str → Str
  | _, [] => []
  | atStart, c :: rest =>
    if atStart = true ∧ (fmMatchAt (c :: rest)).isSome then
      (fmMatchAt (c :: rest)).getD []
    else c :: removeFMAux (c = '\n') rest

/-- `cleanedText.replace(/^---\n[\s\S]*?\n---(\n|$)/m, '')`. -/
def removeFrontmatter (s : Str) : Str := removeFMAux true s

/-- Lazy search for the closing ``` of a fenced code block: the earliest
occurrence of three consecutive backticks; returns the text after it. -/
def fenceClose : Str → Option Str
  | [] => none
  | c :: rest =>
    if c = btick ∧ rest.take 2 = [btick, btick] then some (rest.drop 2)
    else fenceClose rest

/-- Step 2a of `cleanText` (when `skipCodeBlocks`):
`replace(/```[\s\S]*?```/g, '')`. -/
def removeFencesGo : Nat → Str → Str
  | _, [] => []
  | 0, s => s
  | fuel + 1, c :: rest =>
    if c = btick ∧ rest.take 2 = [btick, btick] ∧ (fenceClose (rest.drop 2)).isSome then
      removeFencesGo fuel ((fenceClose (rest.drop 2)).getD [])
    else c :: removeFencesGo fuel rest

def removeFences (s : Str) : Str := removeFencesGo s.length s

/-- Step 2b of `cleanText` (when `skipCodeBlocks`):
`replace(/`[^`]+`/g, '')` — greedy `[^`]+` is the maximal backtick-free
run, which must be non-empty and followed by a closing backtick. -/
def removeInlineGo : Nat → Str → Str
  | _, [] => []
  | 0, s => s
  | fuel + 1, c :: rest =>
    if c = btick ∧ rest.takeWhile (· ≠ btick) ≠ [] ∧ rest.dropWhile (· ≠ btick) ≠ [] then
      removeInlineGo fuel (rest.dropWhile (· ≠ btick)).tail
    else c :: removeInlineGo fuel rest

def removeInlineCode (s : Str) : Str := removeInlineGo s.length s

/-- Step 3 of `cleanText`: `replace(/^#{1,6}\s+(.*)$/gm, '$1')`.  The
`\s+` is greedy and may span newlines; `(.*)` then takes the rest of the
current line and the zero-width `$` always succeeds. -/
def stripHeadersGo : Nat → Bool → Str → Str
  | _, _, [] => []
  | 0, _, s => s
  | fuel + 1, atStart, c :: rest =>
    if atStart = true ∧ c = '#' ∧ (rest.takeWhile (· = '#')).length ≤ 5 ∧
        (rest.dropWhile (· = '#')).takeWhile isWS ≠ [] then
      -- the hash run is c plus rest's leading hashes (1 to 6 total)
      (((rest.dropWhile (· = '#')).dropWhile isWS).takeWhile (· ≠ '\n')) ++
        stripHeadersGo fuel false (((rest.dropWhile (· = '#')).dropWhile isWS).dropWhile (· ≠ '\n'))
    else c :: stripHeadersGo fuel (c = '\n') rest

def stripHeaders (s : Str) : Str := stripHeadersGo s.length true s

/-- Step 4a/4b of `cleanText`: `replace(/\*\*([^*]+)\*\*/g, '$1')` and
`replace(/__([^_]+)__/g, '$1')`, parametric in the delimiter. -/
def stripBoldGo (d : Char) : Nat → Str → Str
  | _, [] => []
  | 0, s => s
  | fuel + 1, c :: rest =>
    if c = d ∧ rest.take 1 = [d] ∧ (rest.drop 1).takeWhile (· ≠ d) ≠ [] ∧
        ((rest.drop 1).dropWhile (· ≠ d)).tail.take 1 = [d] then
      (rest.drop 1).takeWhile (· ≠ d) ++
        stripBoldGo d fuel (((rest.drop 1).dropWhile (· ≠ d)).drop 2)
    else c :: stripBoldGo d fuel rest

def stripBold (d : Char) (s : Str) : Str := stripBoldGo d s.length s

/-- Step 5a/5b of `cleanText`: `replace(/\*([^*]+)\*/g, '$1')` and
`replace(/_([^_]+)_/g, '$1')`, parametric in the delimiter. -/
def stripItalGo (d : Char) : Nat → Str → Str
  | _, [] => []
  | 0, s => s
  | fuel + 1, c :: rest =>
    if c = d ∧ rest.takeWhile (· ≠ d) ≠ [] ∧ rest.dropWhile (· ≠ d) ≠ [] then
      rest.takeWhile (· ≠ d) ++ stripItalGo d fuel (rest.dropWhile (· ≠ d)).tail
    else c :: stripItalGo d fuel rest

def stripItal (d : Char) (s : Str) : Str := stripItalGo d s.length s

/-- Step 6 of `cleanText`: `replace(/\[([^\]]+)\]\([^\)]+\)/g, '$1')`. -/
def stripLinksGo : Nat → Str → Str
  | _, [] => []
  | 0, s => s
  | fuel + 1, c :: rest =>
    if c = '[' ∧ rest.takeWhile (· ≠ ']') ≠ [] ∧ rest.dropWhile (· ≠ ']') ≠ [] ∧
        (rest.dropWhile (· ≠ ']')).tail.take 1 = ['('] ∧
        ((rest.dropWhile (· ≠ ']')).tail.drop 1).takeWhile (· ≠ ')') ≠ [] ∧
        ((rest.dropWhile (· ≠ ']')).tail.drop 1).dropWhile (· ≠ ')') ≠ [] then
      rest.takeWhile (· ≠ ']') ++
        stripLinksGo fuel (((rest.dropWhile (· ≠ ']')).tail.drop 1).dropWhile (· ≠ ')')).tail
    else c :: stripLinksGo fuel rest

def stripLinks (s : Str) : Str := stripLinksGo s.length s

/-- Core of the wikilink regex after the optional `[^\]|]*\|` group:
`([^\]]+)\]\]` — returns the captured label and the text after the
match. -/
def wlCore (s : Str) : Option (Str × Str) :=
  if s.takeWhile (· ≠ ']') ≠ [] ∧ s.dropWhile (· ≠ ']') ≠ [] ∧
      (s.dropWhile (· ≠ ']')).tail.take 1 = [']'] then
    some (s.takeWhile (· ≠ ']'), (s.dropWhile (· ≠ ']')).tail.drop 1)
  else none

/-- Wikilink match attempt after the opening `[[`: the greedy optional
group `(?:[^\]|]*\|)?` is tried first (its run stops at the first `]` or
`|`); if the rest of the pattern then fails, the engine backtracks and
retries with the optional group empty. -/
def wlMatch (s : Str) : Option (Str × Str) :=
  if (s.dropWhile (fun c => ¬(c = ']' ∨ c = '|'))).take 1 = ['|'] ∧
      (wlCore (s.dropWhile (fun c => ¬(c = ']' ∨ c = '|'))).tail).isSome then
    wlCore (s.dropWhile (fun c => ¬(c = ']' ∨ c = '|'))).tail
  else wlCore s

/-- Step 7 of `cleanText`:
`replace(/\[\[(?:[^\]|]*\|)?([^\]]+)\]\]/g, '$1')`. -/
def stripWikiGo : Nat → Str → Str
  | _, [] => []
  | 0, s => s
  | fuel + 1, c :: rest =>
    if c = '[' ∧ rest.take 1 = ['['] ∧ (wlMatch (rest.drop 1)).isSome then
      ((wlMatch (rest.drop 1)).getD ([], [])).1 ++
        stripWikiGo fuel ((wlMatch (rest.drop 1)).getD ([], [])).2
    else c :: stripWikiGo fuel rest

def stripWiki (s : Str) : Str := stripWikiGo s.length s

/-- Step 8 of `cleanText`: `replace(/^>\s+/gm, '')`.  The greedy `\s+`
may span newlines; whether the position after the consumed run is a line
start depends on whether the run ends with a newline. -/
def stripQuoteGo : Nat → Bool → Str → Str
  | _, _, [] => []
  | 0, _, s => s
  | fuel + 1, atStart, c :: rest =>
    if atStart = true ∧ c = '>' ∧ rest.takeWhile isWS ≠ [] then
      stripQuoteGo fuel (lastIsNL (rest.takeWhile isWS)) (rest.dropWhile isWS)
    else c :: stripQuoteGo fuel (c = '\n') rest

def stripQuote (s : Str) : Str := stripQuoteGo s.length true s

/-- Step 9a of `cleanText`: `replace(/^[-*+]\s+/gm, '')`. -/
def stripUListGo : Nat → Bool → Str → Str
  | _, _, [] => []
  | 0, _, s => s
  | fuel + 1, atStart, c :: rest =>
    if atStart = true ∧ (c = '-' ∨ c = '*' ∨ c = '+') ∧ rest.takeWhile isWS ≠ [] then
      stripUListGo fuel (lastIsNL (rest.takeWhile isWS)) (rest.dropWhile isWS)
    else c :: stripUListGo fuel (c = '\n') rest

def stripUList (s : Str) : Str := stripUListGo s.length true s

/-- Step 9b of `cleanText`: `replace(/^\d+\.\s+/gm, '')`.  The digit run
is `c` plus the following digits, then a literal dot, then `\s+`. -/
def stripOListGo : Nat → Bool → Str → Str
  | _, _, [] => []
  | 0, _, s => s
  | fuel + 1, atStart, c :: rest =>
    if atStart = true ∧ c.isDigit ∧ (rest.dropWhile Char.isDigit).take 1 = ['.'] ∧
        ((rest.dropWhile Char.isDigit).drop 1).takeWhile isWS ≠ [] then
      stripOListGo fuel (lastIsNL (((rest.dropWhile Char.isDigit).drop 1).takeWhile isWS))
        (((rest.dropWhile Char.isDigit).drop 1).dropWhile isWS)
    else c :: stripOListGo fuel (c = '\n') rest

def stripOList (s : Str) : Str := stripOListGo s.length true s

/-- Steps 3-10 of `cleanText` (everything after the code-block removal),
in source order: headers, `**`, `__`, `*`, `_`, markdown links,
wikilinks, blockquotes, unordered lists, ordered lists, final trim. -/
def postCode (t : Str) : Str :=
  trimWS (stripOList (stripUList (stripQuote (stripWiki (stripLinks
    (stripItal '_' (stripItal '*' (stripBold '_' (stripBold '*' (stripHeaders t))))))))))

/-- `cleanText` (src/main.ts lines 406-445): the full normalization
pipeline; `skip` is `settings.skipCodeBlocks`. -/
def cleanText (skip : Bool) (text : Str) : Str :=
  postCode (if skip then removeInlineCode (removeFences (removeFrontmatter text))
            else removeFrontmatter text)

/-! ## WAV synthesis (`pcmToWav`, src/main.ts lines 447-493) -/

/-- `writeInt32`: the four little-endian bytes of a (non-negative)
JavaScript number; `(value >> 8k) & 0xff` extracts bit 8k..8k+7 of the
value reduced to 32 bits, which for `k ≤ 3` is `(v / 2^(8k)) % 256`. -/
def le32 (v : Nat) : List Nat :=
  [v % 256, v / 256 % 256, v / 65536 % 256, v / 16777216 % 256]

/-- `writeInt16`: the two little-endian bytes. -/
def le16 (v : Nat) : List Nat := [v % 256, v / 256 % 256]

/-- The 44-byte RIFF/WAVE/fmt/data header written by `pcmToWav` for
`dataLen` PCM bytes at `rate` Hz (mono, 16-bit: channels = 1,
bytesPerSample = 2). -/
def wavHeader (dataLen rate : Nat) : List Nat :=
  [0x52, 0x49, 0x46, 0x46] ++ le32 (36 + dataLen) ++ [0x57, 0x41, 0x56, 0x45] ++
  [0x66, 0x6d, 0x74, 0x20] ++ le32 16 ++ le16 1 ++ le16 1 ++
  le32 rate ++ le32 (rate * 1 * 2) ++ le16 (1 * 2) ++ le16 16 ++
  [0x64, 0x61, 0x74, 0x61] ++ le32 dataLen

/-- `pcmToWav(pcmBuffer, sampleRate)`: 44-byte header followed by the raw
PCM bytes. -/
def pcmToWav (pcm : List Nat) (sampleRate : Nat) : List Nat :=
  wavHeader pcm.length sampleRate ++ pcm

/-- Read back a little-endian 32-bit field at byte offset `off`. -/
def readLE32 (l : List Nat) (off : Nat) : Nat :=
  match l.drop off with
  | b0 :: b1 :: b2 :: b3 :: _ => b0 + 256 * b1 + 65536 * b2 + 16777216 * b3
  | _ => 0

/-! ## Audio response decoding (`fetchGeminiAudio`, src/main.ts 578-596) -/

def natOfDigits (ds : Str) : Nat :=
  ds.foldl (fun a c => a * 10 + (c.toNat - 48)) 0

/-- The `mimeType?.match(/rate=(\d+)/)` + `parseInt` pair: first
occurrence of `rate=` followed by at least one digit; the greedy digit
run is parsed. -/
def rateOf : Str → Option Nat
  | [] => none
  | c :: rest =>
    if ['r', 'a', 't', 'e', '='].isPrefixOf (c :: rest) ∧
        (rest.drop 4).takeWhile Char.isDigit ≠ [] then
      some (natOfDigits ((rest.drop 4).takeWhile Char.isDigit))
    else rateOf rest

/-- Format detection and PCM-to-WAV conversion of `fetchGeminiAudio`
(lines 578-596): the decoded base64 bytes plus the declared MIME type
give the playable buffer and its playback MIME type. -/
def decodeAudio (bytes : List Nat) (mimeType : Option Str) : List Nat × String :=
  let hasTok : Str → Bool := fun tok =>
    match mimeType with
    | some m => containsSeq tok m
    | none => false
  if hasTok ['L', '1', '6'] || hasTok ['p', 'c', 'm'] then
    let sampleRate : Nat :=
      match mimeType with
      | some m => (rateOf m).getD 24000
      | none => 24000
    (pcmToWav bytes sampleRate, "audio/wav")
  else if hasTok ['m', 'p', 'e', 'g'] then (bytes, "audio/mpeg")
  else if hasTok ['o', 'g', 'g'] then (bytes, "audio/ogg")
  else (bytes, "audio/mpeg")

/-! ## Remote request construction (`fetchGeminiAudio`, src/main.ts 495-521) -/

structure GeminiTTSSettings where
  apiKey : Str
  modelName : Str
  voiceName : Str
  stylePrompt : Str
  skipCodeBlocks : Bool
  saveAudioFiles : Bool
  audioOutputFolder : Str
deriving DecidableEq, Repr

/-- Text before the first `" - "` separator. -/
def beforeSep : Str → Str
  | [] => []
  | c :: rest =>
    if [' ', '-', ' '].isPrefixOf (c :: rest) then []
    else c :: beforeSep rest

/-- `voiceName.includes(' - ') ? voiceName.split(' - ')[0] : voiceName`. -/
def cleanVoiceName (v : Str) : Str :=
  if containsSeq [' ', '-', ' '] v then beforeSep v else v

/-- The endpoint URL
`https://generativelanguage.googleapis.com/v1beta/models/${modelName}:generateContent?key=${apiKey}`. -/
def geminiEndpoint (st : GeminiTTSSettings) : Str :=
  ("https://generativelanguage.googleapis.com/v1beta/models/".data) ++ st.modelName ++
    (":generateContent?key=".data) ++ st.apiKey

/-- The JSON request body of `fetchGeminiAudio`, as its determining
fields: the only data in the payload are the text part and the cleaned
voice name (plus the constant `responseModalities: ["AUDIO"]`). -/
structure GeminiPayload where
  text : Str
  responseModalities : List String
  voiceName : Str
deriving DecidableEq, Repr

def geminiPayload (st : GeminiTTSSettings) (text : Str) : GeminiPayload :=
  { text := text
    responseModalities := ["AUDIO"]
    voiceName := cleanVoiceName st.voiceName }

/-! ## Playback controller state (`GeminiTTSPlugin`, src/main.ts) -/

/-- An `HTMLAudioElement` as far as the plugin observes it: its object
URL (`src`) and its `loop` flag. -/
structure AudioElem where
  src : Nat
  loop : Bool
deriving DecidableEq, Repr

/-- The plugin's mutable state plus the environment bookkeeping needed to
talk about resource lifecycles: `nextUrl` is the `URL.createObjectURL`
allocator, `revoked` the log of `URL.revokeObjectURL` calls, `localUrl`
the `audioUrl` local variable of the most recent `readActiveNote`
invocation (captured by its `cleanupAudio` closure; `none` once cleared),
`fetchCount` the number of `fetchGeminiAudio` calls, `notices` the log of
`new Notice(...)` messages. -/
structure PluginState where
  currentAudio : Option AudioElem
  isPlaying : Bool
  isPaused : Bool
  statusText : String
  nextUrl : Nat
  revoked : List Nat
  localUrl : Option Nat
  fetchCount : Nat
  notices : List String
deriving DecidableEq, Repr

def initState : PluginState :=
  { currentAudio := none, isPlaying := false, isPaused := false
    statusText := "Gemini TTS", nextUrl := 0, revoked := [], localUrl := none
    fetchCount := 0, notices := [] }

def noticeAdd (msg : String) (s : PluginState) : PluginState :=
  { s with notices := s.notices ++ [msg] }

/-- `stopPlayback` (src/main.ts lines 715-730): pauses and detaches the
current audio element and resets the flags.  Note: it does **not** call
`URL.revokeObjectURL`. -/
def stopPlayback (s : PluginState) : PluginState :=
  match s.currentAudio with
  | some _ =>
    noticeAdd "Playback stopped"
      { s with currentAudio := none, isPlaying := false, isPaused := false
               statusText := "Gemini TTS: Stopped" }
  | none => s

/-- The `cleanupAudio` closure of `readActiveNote` (lines 637-643):
revokes the invocation's `audioUrl` if still set, nulls it, and clears
`isPlaying`.  It does not touch `currentAudio` or `isPaused`. -/
def cleanupAudio (s : PluginState) : PluginState :=
  let s1 :=
    match s.localUrl with
    | some u => { s with revoked := s.revoked ++ [u], localUrl := none }
    | none => s
  { s1 with isPlaying := false }

/-- Outcome of the asynchronous part of one `readActiveNote` run:
the `fetchGeminiAudio` call (or base64 decode) throws, the
`currentAudio.play()` call throws, or everything succeeds. -/
inductive RunOutcome where
  | ok
  | fetchErr
  | playErr
deriving DecidableEq, Repr

/-- `readActiveNote` (src/main.ts lines 613-713).  `note` is the result
of `getActiveViewOfType` / `editor.getValue()` (`none` = no markdown
view); `skip` is `settings.skipCodeBlocks`; `out` resolves the awaits. -/
def readActiveNote (note : Option Str) (skip : Bool) (out : RunOutcome)
    (s0 : PluginState) : PluginState :=
  let s := stopPlayback s0
  match note with
  | none => noticeAdd "No active note found" s
  | some raw =>
    if trimWS raw = [] then noticeAdd "Note is empty" s
    else if trimWS (cleanText skip raw) = [] then
      noticeAdd "No readable text found in note" s
    else
      -- let audioUrl: string | null = null  (fresh local for this run)
      let s := { s with localUrl := none }
      let s := noticeAdd "Generating audio..."
        { s with statusText := "Gemini TTS: Generating..." }
      let s := { s with fetchCount := s.fetchCount + 1 }
      match out with
      | .fetchErr =>
        cleanupAudio
          { noticeAdd "Error: request failed" s with statusText := "Gemini TTS: Error" }
      | .ok =>
        noticeAdd "Playing audio"
          { s with nextUrl := s.nextUrl + 1
                   localUrl := some s.nextUrl
                   currentAudio := some { src := s.nextUrl, loop := false }
                   isPlaying := true, isPaused := false
                   statusText := "Gemini TTS: Playing..." }
      | .playErr =>
        cleanupAudio
          { noticeAdd "Error: playback failed"
              { s with nextUrl := s.nextUrl + 1
                       localUrl := some s.nextUrl
                       currentAudio := some { src := s.nextUrl, loop := false }
                       isPlaying := true, isPaused := false }
            with statusText := "Gemini TTS: Error" }

/-- The `'error'` event listener registered in `readActiveNote`
(lines 678-686): notice, status text, `cleanupAudio()`.  It leaves
`currentAudio` untouched. -/
def errorEvent (s : PluginState) : PluginState :=
  cleanupAudio
    { noticeAdd "Error playing audio" s with statusText := "Gemini TTS: Error" }

/-- The `'ended'` event listener (lines 668-676): unless the element
loops, status text and `cleanupAudio()`. -/
def endedEvent (s : PluginState) : PluginState :=
  match s.currentAudio with
  | some a =>
    if a.loop then s
    else cleanupAudio { s with statusText := "Gemini TTS: Stopped" }
  | none => cleanupAudio { s with statusText := "Gemini TTS: Stopped" }

/-- `togglePauseResume` (src/main.ts lines 732-751). -/
def togglePauseResume (s : PluginState) : PluginState :=
  match s.currentAudio with
  | none => noticeAdd "No audio is currently loaded" s
  | some _ =>
    if s.isPaused then
      noticeAdd "Playback resumed"
        { s with isPaused := false, isPlaying := true
                 statusText := "Gemini TTS: Playing..." }
    else if s.isPlaying then
      noticeAdd "Playback paused"
        { s with isPaused := true, isPlaying := false
                 statusText := "Gemini TTS: Paused" }
    else s

/-! ## Host editor collaborator (claim C8) -/

/-- The host editor surface relevant to text acquisition: the current
selection and the full document. -/
structure EditorView where
  selection : Str
  document : Str
deriving DecidableEq, Repr

/-- `editor.getValue()`. -/
def getValue (ed : EditorView) : Str := ed.document

/-- The text `readActiveNote` feeds into the generation flow
(src/main.ts line 623): it calls only `editor.getValue()`; the selection
is never consulted. -/
def consumedText (ed : EditorView) : Str := getValue ed

/-! ## Auxiliary predicates used in the statements of the claims -/

/-- Scan for a position inside `s` (with `b` recording whether the scan
starts at a line start) where a line begins with `---` followed by a
newline — the places where the front-matter opener `^---\n` can match
within `s` itself. -/
def fmOpenerScan : Bool → Str → Bool
  | _, [] => false
  | b, c :: rest =>
    (b && ['-', '-', '-', '\n'].isPrefixOf (c :: rest)) || fmOpenerScan (c = '\n') rest

/-- Scan for a position where the unordered-list marker `^[-*+]\s+` can
match. -/
def ulTrigger : Bool → Str → Bool
  | _, [] => false
  | b, c :: rest =>
    (b && (c = '-' ∨ c = '*' ∨ c = '+') && !(rest.takeWhile isWS).isEmpty) ||
      ulTrigger (c = '\n') rest

/-- Scan for a position where the ordered-list marker `^\d+\.\s+` can
match. -/
def olTrigger : Bool → Str → Bool
  | _, [] => false
  | b, c :: rest =>
    (b && c.isDigit && ((rest.dropWhile Char.isDigit).take 1 = ['.'] : Bool) &&
      !(((rest.dropWhile Char.isDigit).drop 1).takeWhile isWS).isEmpty) ||
      olTrigger (c = '\n') rest

/-- A string with none of the markup `cleanText` rewrites: no marker
characters (backtick, `*`, `_`, `[`, `#`, `>`), no line that opens a
front-matter block, and no line carrying a list marker. -/
def noMarkup (s : Str) : Prop :=
  btick ∉ s ∧ '*' ∉ s ∧ '_' ∉ s ∧ '[' ∉ s ∧ '#' ∉ s ∧ '>' ∉ s ∧
    fmOpenerScan true s = false ∧ ulTrigger true s = false ∧ olTrigger true s = false

instance : DecidablePred noMarkup := fun s => by unfold noMarkup; infer_instance

/-- A piece of well-formed code markup: plain backtick-free text, an
inline code span, or a fenced block. -/
inductive MdPiece where
  | plain (p : Str)
  | code (w : Str)
  | fence (m : Str)
deriving DecidableEq, Repr

def renderPiece : MdPiece → Str
  | .plain p => p
  | .code w => btick :: (w ++ [btick])
  | .fence m => btick :: btick :: btick :: (m ++ [btick, btick, btick])

def renderPieces (ps : List MdPiece) : Str := (ps.map renderPiece).flatten

def pieceOKB : MdPiece → Bool
  | .plain p => !p.isEmpty && !p.contains btick
  | .code w => !w.isEmpty && !w.contains btick
  | .fence m =>
    !containsSeq [btick, btick, btick] m &&
      !(match m.getLast? with | some c => c = btick | none => false)

def isFence : MdPiece → Bool
  | .fence _ => true
  | _ => false

def isCodeSpan : MdPiece → Bool
  | .code _ => true
  | _ => false

def isPlainPiece : MdPiece → Bool
  | .plain _ => true
  | _ => false

/-- A sequence of well-formed code pieces in which no inline code span is
immediately followed by a fenced block (in that configuration the fence
regex, which runs first, would steal the span's closing backtick). -/
def goodSeq : List MdPiece → Bool
  | [] => true
  | [p] => pieceOKB p
  | p :: q :: rest => pieceOKB p && !(isCodeSpan p && isFence q) && goodSeq (q :: rest)

/-! # Theorems

General helper lemmas first, then the per-claim theorems (one theorem per
claim, with a witness when the theorem has hypotheses and a counterexample
where the claim as stated fails). -/

/-! ## WAV container fields -/

lemma readLE32_append (pre : List Nat) (v : Nat) (suf : List Nat)
    (hv : v < 4294967296) :
    readLE32 (pre ++ (le32 v ++ suf)) pre.length = v := by
  unfold readLE32 le32
  rw [List.drop_left]
  simp only [List.cons_append, List.nil_append]
  omega

lemma pcmToWav_eq_rate (pcm : List Nat) (r : Nat) :
    pcmToWav pcm r =
      ([0x52, 0x49, 0x46, 0x46] ++ le32 (36 + pcm.length) ++ [0x57, 0x41, 0x56, 0x45] ++
        [0x66, 0x6d, 0x74, 0x20] ++ le32 16 ++ le16 1 ++ le16 1) ++
      (le32 r ++
        (le32 (r * 1 * 2) ++ le16 (1 * 2) ++ le16 16 ++ [0x64, 0x61, 0x74, 0x61] ++
          le32 pcm.length ++ pcm)) := by
  simp [pcmToWav, wavHeader]

lemma wav_field_rate (pcm : List Nat) (r : Nat) (hr : r < 4294967296) :
    readLE32 (pcmToWav pcm r) 24 = r := by
  rw [pcmToWav_eq_rate]
  have h24 : ([0x52, 0x49, 0x46, 0x46] ++ le32 (36 + pcm.length) ++
      [0x57, 0x41, 0x56, 0x45] ++ [0x66, 0x6d, 0x74, 0x20] ++ le32 16 ++ le16 1 ++
      le16 1 : List Nat).length = 24 := by
    simp [le32, le16]
  rw [← h24, readLE32_append _ _ _ hr]

lemma pcmToWav_eq_data (pcm : List Nat) (r : Nat) :
    pcmToWav pcm r =
      ([0x52, 0x49, 0x46, 0x46] ++ le32 (36 + pcm.length) ++ [0x57, 0x41, 0x56, 0x45] ++
        [0x66, 0x6d, 0x74, 0x20] ++ le32 16 ++ le16 1 ++ le16 1 ++ le32 r ++
        le32 (r * 1 * 2) ++ le16 (1 * 2) ++ le16 16 ++ [0x64, 0x61, 0x74, 0x61]) ++
      (le32 pcm.length ++ pcm) := by
  simp [pcmToWav, wavHeader]

lemma wav_field_data (pcm : List Nat) (r : Nat) (hd : pcm.length < 4294967296) :
    readLE32 (pcmToWav pcm r) 40 = pcm.length := by
  rw [pcmToWav_eq_data]
  have h40 : ([0x52, 0x49, 0x46, 0x46] ++ le32 (36 + pcm.length) ++
      [0x57, 0x41, 0x56, 0x45] ++ [0x66, 0x6d, 0x74, 0x20] ++ le32 16 ++ le16 1 ++
      le16 1 ++ le32 r ++ le32 (r * 1 * 2) ++ le16 (1 * 2) ++ le16 16 ++
      [0x64, 0x61, 0x74, 0x61] : List Nat).length = 40 := by
    simp [le32, le16]
  rw [← h40, readLE32_append _ _ _ hd]

lemma pcmToWav_eq_riff (pcm : List Nat) (r : Nat) :
    pcmToWav pcm r =
      ([0x52, 0x49, 0x46, 0x46] : List Nat) ++
      (le32 (36 + pcm.length) ++
        ([0x57, 0x41, 0x56, 0x45] ++ [0x66, 0x6d, 0x74, 0x20] ++ le32 16 ++ le16 1 ++
          le16 1 ++ le32 r ++ le32 (r * 1 * 2) ++ le16 (1 * 2) ++ le16 16 ++
          [0x64, 0x61, 0x74, 0x61] ++ le32 pcm.length ++ pcm)) := by
  simp [pcmToWav, wavHeader]

lemma wav_field_riff (pcm : List Nat) (r : Nat) (hd : 36 + pcm.length < 4294967296) :
    readLE32 (pcmToWav pcm r) 4 = 36 + pcm.length := by
  rw [pcmToWav_eq_riff]
  have h4 : ([0x52, 0x49, 0x46, 0x46] : List Nat).length = 4 := rfl
  rw [← h4, readLE32_append _ _ _ hd]

lemma pcmToWav_length (pcm : List Nat) (r : Nat) :
    (pcmToWav pcm r).length = 44 + pcm.length := by
  simp [pcmToWav, wavHeader, le32, le16]
  omega

/-- Claim C6: round-trip of the synthesized container.  Encoding a
buffer of `2 * n` PCM bytes (`n` 16-bit mono samples) at rate `r` and
reading back the little-endian sample-rate field (offset 24), the data
sub-chunk size field (offset 40, halved for the sample count) and the
overall RIFF size field (offset 4) yields `r`, `2 * n`, `n` and
`36 + 2 * n` exactly (for field values below `2^32`, the width the
writer truncates to). -/
theorem c6_theorem (pcm : List Nat) (r n : Nat)
    (hr : r < 4294967296) (hd : 36 + pcm.length < 4294967296)
    (hn : pcm.length = 2 * n) :
    readLE32 (pcmToWav pcm r) 24 = r ∧
    readLE32 (pcmToWav pcm r) 40 = pcm.length ∧
    readLE32 (pcmToWav pcm r) 40 / 2 = n ∧
    readLE32 (pcmToWav pcm r) 4 = 36 + pcm.length := by
  have hdat : pcm.length < 4294967296 := by omega
  refine ⟨wav_field_rate pcm r hr, wav_field_data pcm r hdat, ?_, wav_field_riff pcm r hd⟩
  rw [wav_field_data pcm r hdat, hn]
  omega

/-- Witness for C6 at a concrete input: 4 PCM bytes (2 samples) at
16000 Hz. -/
theorem c6_witness :
    (16000 < 4294967296 ∧ 36 + ([1, 2, 3, 4] : List Nat).length < 4294967296 ∧
      ([1, 2, 3, 4] : List Nat).length = 2 * 2) ∧
    (readLE32 (pcmToWav [1, 2, 3, 4] 16000) 24 = 16000 ∧
      readLE32 (pcmToWav [1, 2, 3, 4] 16000) 40 = ([1, 2, 3, 4] : List Nat).length ∧
      readLE32 (pcmToWav [1, 2, 3, 4] 16000) 40 / 2 = 2 ∧
      readLE32 (pcmToWav [1, 2, 3, 4] 16000) 4 = 36 + ([1, 2, 3, 4] : List Nat).length) :=
  ⟨by decide, c6_theorem [1, 2, 3, 4] 16000 2 (by decide) (by decide) (by decide)⟩

/-- Claim C5: for a declared MIME type containing an `L16`/`pcm`
indicator, the decoder outputs the 44-byte header prefixed to the raw
bytes (so length `44 + n`), with playable type `audio/wav`, and the
header's sample-rate field holds the `rate=<N>` parameter of the MIME
string, defaulting to 24000 when absent. -/
theorem c5_theorem (bytes : List Nat) (m : Str)
    (h : (containsSeq ['L', '1', '6'] m || containsSeq ['p', 'c', 'm'] m) = true)
    (hr : (rateOf m).getD 24000 < 4294967296) :
    (decodeAudio bytes (some m)).1 = wavHeader bytes.length ((rateOf m).getD 24000) ++ bytes ∧
    (decodeAudio bytes (some m)).1.length = 44 + bytes.length ∧
    (decodeAudio bytes (some m)).2 = "audio/wav" ∧
    readLE32 (decodeAudio bytes (some m)).1 24 = (rateOf m).getD 24000 := by
  have hd : decodeAudio bytes (some m) =
      (pcmToWav bytes ((rateOf m).getD 24000), "audio/wav") := by
    simp only [decodeAudio, h, if_true]
  rw [hd]
  exact ⟨rfl, pcmToWav_length bytes _, rfl, wav_field_rate bytes _ hr⟩

/-- Witness for C5: Scenario C of the spec — `"audio/L16;rate=16000"`
with 32000 raw bytes yields a 32044-byte WAV buffer whose rate field
reads back 16000. -/
theorem c5_witness :
    ((containsSeq ['L', '1', '6'] ("audio/L16;rate=16000".data) ||
        containsSeq ['p', 'c', 'm'] ("audio/L16;rate=16000".data)) = true) ∧
    (decodeAudio (List.replicate 32000 0) (some ("audio/L16;rate=16000".data))).1.length = 32044 ∧
    (decodeAudio (List.replicate 32000 0) (some ("audio/L16;rate=16000".data))).2 = "audio/wav" ∧
    readLE32 (decodeAudio (List.replicate 32000 0) (some ("audio/L16;rate=16000".data))).1 24
      = 16000 := by
  have h := c5_theorem (List.replicate 32000 0) ("audio/L16;rate=16000".data)
    (by decide) (by decide)
  have hrate : (rateOf ("audio/L16;rate=16000".data)).getD 24000 = 16000 := by decide
  refine ⟨by decide, ?_, h.2.2.1, ?_⟩
  · rw [h.2.1, List.length_replicate]
  · rw [h.2.2.2, hrate]

/-! ## Claim C10: the style prompt does not influence the request -/

/-- Claim C10: two settings that agree on every field except possibly
`stylePrompt` produce the same request endpoint and the same request
payload — `stylePrompt` has no influence on the remote request. -/
theorem c10_theorem (s1 s2 : GeminiTTSSettings) (text : Str)
    (hk : s1.apiKey = s2.apiKey) (hm : s1.modelName = s2.modelName)
    (hv : s1.voiceName = s2.voiceName) (_hs : s1.skipCodeBlocks = s2.skipCodeBlocks)
    (_hf : s1.saveAudioFiles = s2.saveAudioFiles)
    (_ho : s1.audioOutputFolder = s2.audioOutputFolder) :
    geminiEndpoint s1 = geminiEndpoint s2 ∧ geminiPayload s1 text = geminiPayload s2 text := by
  constructor
  · simp [geminiEndpoint, hk, hm]
  · simp [geminiPayload, hv]

/-- Witness for C10: two concrete settings records differing exactly in
`stylePrompt` yield identical endpoint and payload. -/
theorem c10_witness :
    (GeminiTTSSettings.mk ['k'] ['m'] ("Zephyr - Bright".data) ['x'] true false ['f']).stylePrompt ≠
      (GeminiTTSSettings.mk ['k'] ['m'] ("Zephyr - Bright".data) ['y'] true false ['f']).stylePrompt ∧
    geminiEndpoint (GeminiTTSSettings.mk ['k'] ['m'] ("Zephyr - Bright".data) ['x'] true false ['f']) =
      geminiEndpoint (GeminiTTSSettings.mk ['k'] ['m'] ("Zephyr - Bright".data) ['y'] true false ['f']) ∧
    geminiPayload (GeminiTTSSettings.mk ['k'] ['m'] ("Zephyr - Bright".data) ['x'] true false ['f']) ['t'] =
      geminiPayload (GeminiTTSSettings.mk ['k'] ['m'] ("Zephyr - Bright".data) ['y'] true false ['f']) ['t'] :=
  ⟨by decide,
    c10_theorem _ _ ['t'] rfl rfl rfl rfl rfl rfl⟩

/-! ## Claim C8: selection is never consulted -/

/-- Claim C8 (code bug relative to the documented behaviour): the text
acquisition of `readActiveNote` is `editor.getValue()` alone, so with a
non-empty selection `"abc"` and document `"xyz"` the flow consumes the
document, not the selection. -/
theorem c8_theorem :
    consumedText { selection := ['a', 'b', 'c'], document := ['x', 'y', 'z'] } = ['x', 'y', 'z'] ∧
    (['a', 'b', 'c'] : Str) ≠ [] ∧
    consumedText { selection := ['a', 'b', 'c'], document := ['x', 'y', 'z'] } ≠ ['a', 'b', 'c'] := by
  decide

/-! ## Playback lifecycle lemmas -/

lemma stopPlayback_core (s : PluginState) :
    (stopPlayback s).currentAudio = none ∧ (stopPlayback s).nextUrl = s.nextUrl ∧
    (stopPlayback s).revoked = s.revoked ∧ (stopPlayback s).localUrl = s.localUrl ∧
    (stopPlayback s).fetchCount = s.fetchCount := by
  rcases hsc : s.currentAudio with _ | a <;> simp [stopPlayback, noticeAdd, hsc]

lemma stopPlayback_flags (s : PluginState)
    (hWF : s.currentAudio = none → s.isPlaying = false ∧ s.isPaused = false) :
    (stopPlayback s).isPlaying = false ∧ (stopPlayback s).isPaused = false := by
  rcases hsc : s.currentAudio with _ | a
  · simpa [stopPlayback, hsc] using hWF hsc
  · simp [stopPlayback, noticeAdd, hsc]

lemma stopPlayback_isPaused (s : PluginState)
    (hWF : s.currentAudio = none → s.isPaused = false) :
    (stopPlayback s).isPaused = false := by
  rcases hsc : s.currentAudio with _ | a
  · simpa [stopPlayback, hsc] using hWF hsc
  · simp [stopPlayback, noticeAdd, hsc]

lemma ran_rawEmpty (s : PluginState) (raw : Str) (skip : Bool) (out : RunOutcome)
    (h : trimWS raw = []) :
    readActiveNote (some raw) skip out s = noticeAdd "Note is empty" (stopPlayback s) := by
  simp [readActiveNote, h]

lemma ran_cleanEmpty (s : PluginState) (raw : Str) (skip : Bool) (out : RunOutcome)
    (h1 : trimWS raw ≠ []) (h2 : trimWS (cleanText skip raw) = []) :
    readActiveNote (some raw) skip out s =
      noticeAdd "No readable text found in note" (stopPlayback s) := by
  simp [readActiveNote, h1, h2]

lemma ran_ok_fields (s : PluginState) (raw : Str) (skip : Bool)
    (h1 : trimWS raw ≠ []) (h2 : trimWS (cleanText skip raw) ≠ []) :
    (readActiveNote (some raw) skip .ok s).currentAudio
        = some { src := s.nextUrl, loop := false } ∧
    (readActiveNote (some raw) skip .ok s).nextUrl = s.nextUrl + 1 ∧
    (readActiveNote (some raw) skip .ok s).revoked = s.revoked ∧
    (readActiveNote (some raw) skip .ok s).localUrl = some s.nextUrl ∧
    (readActiveNote (some raw) skip .ok s).isPlaying = true ∧
    (readActiveNote (some raw) skip .ok s).isPaused = false ∧
    (readActiveNote (some raw) skip .ok s).fetchCount = s.fetchCount + 1 := by
  have hsp := stopPlayback_core s
  simp [readActiveNote, h1, h2, noticeAdd, hsp.2.1, hsp.2.2.1, hsp.2.2.2.2]

lemma ran_fetchErr_fields (s : PluginState) (raw : Str) (skip : Bool)
    (h1 : trimWS raw ≠ []) (h2 : trimWS (cleanText skip raw) ≠ []) :
    (readActiveNote (some raw) skip .fetchErr s).currentAudio = none ∧
    (readActiveNote (some raw) skip .fetchErr s).isPlaying = false ∧
    (readActiveNote (some raw) skip .fetchErr s).isPaused = (stopPlayback s).isPaused ∧
    (readActiveNote (some raw) skip .fetchErr s).revoked = s.revoked ∧
    (readActiveNote (some raw) skip .fetchErr s).localUrl = none := by
  have hsp := stopPlayback_core s
  simp [readActiveNote, h1, h2, noticeAdd, cleanupAudio, hsp.1, hsp.2.2.1]

lemma cleanupAudio_fields (s : PluginState) :
    (cleanupAudio s).currentAudio = s.currentAudio ∧ (cleanupAudio s).isPlaying = false ∧
    (cleanupAudio s).isPaused = s.isPaused := by
  rcases hl : s.localUrl with _ | u <;> simp [cleanupAudio, hl]

lemma errorEvent_fields (s : PluginState) (u : Nat) (hl : s.localUrl = some u) :
    (errorEvent s).currentAudio = s.currentAudio ∧ (errorEvent s).isPlaying = false ∧
    (errorEvent s).revoked = s.revoked ++ [u] := by
  simp [errorEvent, cleanupAudio, noticeAdd, hl]

/-- Claim C1 (amended): two successive successful `readActiveNote` calls
leave exactly one live session (the second one, with the freshly
allocated object URL `s.nextUrl + 1`), but the revocation log is
unchanged — the first session's object URL is released zero times by the
superseding start, not once: `stopPlayback` pauses and detaches the old
element without revoking its URL. -/
theorem c1_theorem (s : PluginState) (raw1 raw2 : Str)
    (h1 : trimWS raw1 ≠ []) (h2 : trimWS (cleanText true raw1) ≠ [])
    (h3 : trimWS raw2 ≠ []) (h4 : trimWS (cleanText true raw2) ≠ []) :
    (readActiveNote (some raw2) true .ok (readActiveNote (some raw1) true .ok s)).currentAudio
        = some { src := s.nextUrl + 1, loop := false } ∧
    (readActiveNote (some raw1) true .ok s).currentAudio
        = some { src := s.nextUrl, loop := false } ∧
    (readActiveNote (some raw2) true .ok
        (readActiveNote (some raw1) true .ok s)).revoked = s.revoked := by
  have A := ran_ok_fields s raw1 true h1 h2
  have B := ran_ok_fields (readActiveNote (some raw1) true .ok s) raw2 true h3 h4
  refine ⟨?_, A.1, ?_⟩
  · rw [B.1, A.2.1]
  · rw [B.2.2.1, A.2.2.1]

/-- Witness for C1 (amended) at the concrete trace: two `"hello"` reads
from the initial state. -/
theorem c1_witness :
    (trimWS ("hello".data) ≠ [] ∧ trimWS (cleanText true ("hello".data)) ≠ []) ∧
    ((readActiveNote (some ("hello".data)) true .ok
        (readActiveNote (some ("hello".data)) true .ok initState)).currentAudio
        = some { src := initState.nextUrl + 1, loop := false } ∧
      (readActiveNote (some ("hello".data)) true .ok initState).currentAudio
        = some { src := initState.nextUrl, loop := false } ∧
      (readActiveNote (some ("hello".data)) true .ok
        (readActiveNote (some ("hello".data)) true .ok initState)).revoked
        = initState.revoked) :=
  ⟨⟨by decide, by decide⟩,
    c1_theorem initState ("hello".data) ("hello".data)
      (by decide) (by decide) (by decide) (by decide)⟩

/-- Counterexample to C1 as stated: in the two-successive-starts trace
there is exactly one live session, yet the first session's object URL
(id 0) appears zero times — not exactly once — in the revocation log. -/
theorem c1_counterexample :
    (readActiveNote (some ("hello".data)) true .ok
        (readActiveNote (some ("hello".data)) true .ok initState)).currentAudio.isSome = true ∧
    ¬ ((readActiveNote (some ("hello".data)) true .ok
        (readActiveNote (some ("hello".data)) true .ok initState)).revoked.count 0 = 1) := by
  decide

/-- Claim C2 (amended): a remote-request or decode failure (`fetchErr`,
thrown before any object URL exists) leaves the controller Idle — no
session, both flags false, nothing allocated and nothing leaked.  A
playback-device `error` event on a live session releases that session's
object URL exactly once and clears `isPlaying`, but `cleanupAudio` does
not clear `currentAudio`, so the state is not fully Idle on that path. -/
theorem c2_theorem (s : PluginState) (raw : Str)
    (h1 : trimWS raw ≠ []) (h2 : trimWS (cleanText true raw) ≠ [])
    (hWF : s.currentAudio = none → s.isPaused = false) :
    ((readActiveNote (some raw) true .fetchErr s).currentAudio = none ∧
      (readActiveNote (some raw) true .fetchErr s).isPlaying = false ∧
      (readActiveNote (some raw) true .fetchErr s).isPaused = false ∧
      (readActiveNote (some raw) true .fetchErr s).revoked = s.revoked) ∧
    ((errorEvent (readActiveNote (some raw) true .ok s)).isPlaying = false ∧
      (errorEvent (readActiveNote (some raw) true .ok s)).revoked = s.revoked ++ [s.nextUrl] ∧
      (errorEvent (readActiveNote (some raw) true .ok s)).currentAudio
        = some { src := s.nextUrl, loop := false }) := by
  have F := ran_fetchErr_fields s raw true h1 h2
  have O := ran_ok_fields s raw true h1 h2
  have E := errorEvent_fields (readActiveNote (some raw) true .ok s) s.nextUrl O.2.2.2.1
  refine ⟨⟨F.1, F.2.1, ?_, F.2.2.2.1⟩, E.2.1, ?_, ?_⟩
  · rw [F.2.2.1]; exact stopPlayback_isPaused s hWF
  · rw [E.2.2, O.2.2.1]
  · rw [E.1, O.1]

/-- Witness for C2 (amended) at the concrete input `"hi"` from the
initial state. -/
theorem c2_witness :
    (trimWS ("hi".data) ≠ [] ∧ trimWS (cleanText true ("hi".data)) ≠ []) ∧
    (((readActiveNote (some ("hi".data)) true .fetchErr initState).currentAudio = none ∧
      (readActiveNote (some ("hi".data)) true .fetchErr initState).isPlaying = false ∧
      (readActiveNote (some ("hi".data)) true .fetchErr initState).isPaused = false ∧
      (readActiveNote (some ("hi".data)) true .fetchErr initState).revoked
        = initState.revoked) ∧
    ((errorEvent (readActiveNote (some ("hi".data)) true .ok initState)).isPlaying = false ∧
      (errorEvent (readActiveNote (some ("hi".data)) true .ok initState)).revoked
        = initState.revoked ++ [initState.nextUrl] ∧
      (errorEvent (readActiveNote (some ("hi".data)) true .ok initState)).currentAudio
        = some { src := initState.nextUrl, loop := false })) :=
  ⟨⟨by decide, by decide⟩,
    c2_theorem initState ("hi".data) (by decide) (by decide) (fun _ => rfl)⟩

/-- Counterexample to C2 as stated: after a playback-device error event
the session handle `currentAudio` is still set — the system is not in
the Idle state with no active session. -/
theorem c2_counterexample :
    ¬ ((errorEvent (readActiveNote (some ("hi".data)) true .ok initState)).currentAudio
        = none) := by
  decide

/-- Claim C7: on an empty (or whitespace-only) document, or one whose
normalized text is empty, `readActiveNote` reports the condition and
returns before the remote call: `fetchCount` is unchanged, the
controller ends Idle (no session, flags false), and the last notice is
the matching empty-input message. -/
theorem c7_theorem (s : PluginState) (raw : Str) (skip : Bool) (out : RunOutcome)
    (h : trimWS raw = [] ∨ trimWS (cleanText skip raw) = [])
    (hWF : s.currentAudio = none → s.isPlaying = false ∧ s.isPaused = false) :
    (readActiveNote (some raw) skip out s).fetchCount = s.fetchCount ∧
    (readActiveNote (some raw) skip out s).currentAudio = none ∧
    (readActiveNote (some raw) skip out s).isPlaying = false ∧
    (readActiveNote (some raw) skip out s).isPaused = false ∧
    (readActiveNote (some raw) skip out s).notices.getLast? =
      some (if trimWS raw = [] then "Note is empty" else "No readable text found in note") := by
  have hsp := stopPlayback_core s
  have hfl := stopPlayback_flags s hWF
  by_cases hr : trimWS raw = []
  · rw [ran_rawEmpty s raw skip out hr]
    simp [noticeAdd, hsp.1, hsp.2.2.2.2, hfl.1, hfl.2, hr, List.getLast?_concat]
  · have hc : trimWS (cleanText skip raw) = [] := h.resolve_left hr
    rw [ran_cleanEmpty s raw skip out hr hc]
    simp [noticeAdd, hsp.1, hsp.2.2.2.2, hfl.1, hfl.2, hr, List.getLast?_concat]

/-- Witness for C7 at a whitespace-only document from the initial
state. -/
theorem c7_witness :
    (trimWS (" ".data) = []) ∧
    ((readActiveNote (some (" ".data)) true .ok initState).fetchCount
        = initState.fetchCount ∧
      (readActiveNote (some (" ".data)) true .ok initState).currentAudio = none ∧
      (readActiveNote (some (" ".data)) true .ok initState).isPlaying = false ∧
      (readActiveNote (some (" ".data)) true .ok initState).isPaused = false ∧
      (readActiveNote (some (" ".data)) true .ok initState).notices.getLast? =
        some (if trimWS (" ".data) = [] then "Note is empty"
          else "No readable text found in note")) :=
  ⟨by decide,
    c7_theorem initState (" ".data) true .ok (Or.inl (by decide)) (fun _ => ⟨rfl, rfl⟩)⟩

/-! ## Front-matter removal (claim C3) -/

lemma opener_prefix_extend (a t : Str) (hnl : lastIsNL a = true)
    (h : ['-', '-', '-', '\n'].isPrefixOf (a ++ t) = true) :
    ['-', '-', '-', '\n'].isPrefixOf a = true := by
  match a with
  | [] => simp [lastIsNL] at hnl
  | [x] =>
    simp [lastIsNL, List.getLast?_singleton] at hnl
    subst hnl
    simp [List.isPrefixOf] at h
  | [x, y] =>
    simp [lastIsNL, List.getLast?_cons_cons, List.getLast?_singleton] at hnl
    subst hnl
    simp [List.isPrefixOf] at h
  | [x, y, z] =>
    simp [lastIsNL, List.getLast?_cons_cons, List.getLast?_singleton] at hnl
    subst hnl
    simp [List.isPrefixOf] at h
  | x :: y :: z :: w :: a' =>
    simp [List.isPrefixOf] at h ⊢
    exact h

lemma dashes3_prefix_extend (u : Str) (w : Str)
    (h : ['-', '-', '-'].isPrefixOf (u ++ '\n' :: w) = true) :
    ['-', '-', '-'].isPrefixOf u = true := by
  match u with
  | [] => simp [List.isPrefixOf] at h
  | [p] => simp [List.isPrefixOf] at h
  | [p, q] => simp [List.isPrefixOf] at h
  | p :: q :: r :: u' =>
    simp [List.isPrefixOf] at h ⊢
    exact h

lemma removeFMAux_append (a : Str) :
    ∀ (b : Bool) (t : Str), lastIsNL a = true → fmOpenerScan b a = false →
      removeFMAux b (a ++ t) = a ++ removeFMAux true t := by
  induction a with
  | nil => intro b t hnl _; simp [lastIsNL] at hnl
  | cons x a' ih =>
    intro b t hnl hscan
    rcases ha' : a' with _ | ⟨y, a''⟩
    · subst ha'
      simp [lastIsNL, List.getLast?_singleton] at hnl
      subst hnl
      have hmatch : fmMatchAt ('\n' :: t) = none := by
        simp [fmMatchAt, List.isPrefixOf]
      simp [removeFMAux, hmatch]
    · subst ha'
      have hnl' : lastIsNL (y :: a'') = true := by
        simpa [lastIsNL, List.getLast?_cons_cons] using hnl
      have hscan1 : (b && ['-', '-', '-', '\n'].isPrefixOf (x :: y :: a'')) = false ∧
          fmOpenerScan (decide (x = '\n')) (y :: a'') = false := by
        have hu : fmOpenerScan b (x :: y :: a'') =
            ((b && ['-', '-', '-', '\n'].isPrefixOf (x :: y :: a'')) ||
              fmOpenerScan (decide (x = '\n')) (y :: a'')) := rfl
        rw [hu] at hscan
        exact Bool.or_eq_false_iff.mp hscan
      have hcond : ¬ (b = true ∧ (fmMatchAt (x :: (y :: (a'' ++ t)))).isSome = true) := by
        rintro ⟨hb, hsome⟩
        by_cases hpre : ['-', '-', '-', '\n'].isPrefixOf (x :: (y :: (a'' ++ t))) = true
        · have hpa : ['-', '-', '-', '\n'].isPrefixOf (x :: y :: a'') = true := by
            have := opener_prefix_extend (x :: y :: a'') t hnl (by simpa using hpre)
            exact this
          have h1 := hscan1.1
          rw [hb, hpa] at h1
          simp at h1
        · have hnone : fmMatchAt (x :: (y :: (a'' ++ t))) = none := by
            unfold fmMatchAt
            rw [if_neg hpre]
          rw [hnone] at hsome
          simp at hsome
      have step : removeFMAux b (x :: (y :: (a'' ++ t))) =
          x :: removeFMAux (decide (x = '\n')) (y :: (a'' ++ t)) := by
        simp only [removeFMAux]
        rw [if_neg hcond]
      have ihx := ih (decide (x = '\n')) t hnl' hscan1.2
      simp only [List.cons_append] at ihx ⊢
      rw [step, ihx]

lemma fmFindClose_block (b : Str) :
    ∀ (m : Str), containsSeq ['\n', '-', '-', '-'] m = false →
      fmFindClose (m ++ ('\n' :: '-' :: '-' :: '-' :: '\n' :: b)) = some b := by
  intro m
  induction m with
  | nil =>
    intro _
    simp [fmFindClose, List.isPrefixOf]
  | cons x m' ih =>
    intro hm
    have hm1 : ['\n', '-', '-', '-'].isPrefixOf (x :: m') = false ∧
        containsSeq ['\n', '-', '-', '-'] m' = false := by
      have hu : containsSeq ['\n', '-', '-', '-'] (x :: m') =
          (['\n', '-', '-', '-'].isPrefixOf (x :: m') || containsSeq ['\n', '-', '-', '-'] m') :=
        rfl
      rw [hu] at hm
      exact Bool.or_eq_false_iff.mp hm
    have hcond : ¬ (x = '\n' ∧
        ['-', '-', '-'].isPrefixOf (m' ++ ('\n' :: '-' :: '-' :: '-' :: '\n' :: b)) = true) := by
      rintro ⟨hx, hp⟩
      have hpm : ['-', '-', '-'].isPrefixOf m' = true :=
        dashes3_prefix_extend m' ('-' :: '-' :: '-' :: '\n' :: b) hp
      have hcontra : ['\n', '-', '-', '-'].isPrefixOf (x :: m') = true := by
        subst hx
        simpa [List.isPrefixOf] using hpm
      rw [hcontra] at hm1
      simp at hm1
    have hstep : fmFindClose (x :: (m' ++ ('\n' :: '-' :: '-' :: '-' :: '\n' :: b))) =
        fmFindClose (m' ++ ('\n' :: '-' :: '-' :: '-' :: '\n' :: b)) := by
      simp only [fmFindClose]
      rw [if_neg hcond]
    calc fmFindClose ((x :: m') ++ ('\n' :: '-' :: '-' :: '-' :: '\n' :: b))
        = fmFindClose (m' ++ ('\n' :: '-' :: '-' :: '-' :: '\n' :: b)) := by
          simpa [List.cons_append] using hstep
      _ = some b := ih hm1.2

lemma fmMatchAt_block (m b : Str) (hm : containsSeq ['\n', '-', '-', '-'] m = false) :
    fmMatchAt ('-' :: '-' :: '-' :: '\n' :: (m ++ ('\n' :: '-' :: '-' :: '-' :: '\n' :: b)))
      = some b := by
  unfold fmMatchAt
  rw [if_pos]
  · simpa using fmFindClose_block b m hm
  · simp [List.isPrefixOf]

/-- Claim C3 (amended): the front-matter substitution removes exactly one
`---`-delimited block — the first one whose opening `---` line starts a
**line** (because of the regex `m` flag, not necessarily the start of the
document) — and nothing adjacent to it: for a prefix `a` that ends at a
line boundary and contains no opener line, and a block middle with no
line starting in `---`, the removal returns exactly `a ++ b`. -/
theorem c3_theorem (a m b : Str)
    (ha1 : a = [] ∨ lastIsNL a = true) (ha2 : fmOpenerScan true a = false)
    (hm : containsSeq ['\n', '-', '-', '-'] m = false) :
    removeFrontmatter
        (a ++ (['-', '-', '-', '\n'] ++ m ++ ['\n', '-', '-', '-', '\n']) ++ b) = a ++ b := by
  have hblock : removeFMAux true
      ('-' :: '-' :: '-' :: '\n' :: (m ++ ('\n' :: '-' :: '-' :: '-' :: '\n' :: b))) = b := by
    have hsome := fmMatchAt_block m b hm
    simp only [removeFMAux]
    rw [if_pos ⟨by trivial, by rw [hsome]; rfl⟩, hsome]
    rfl
  rcases ha1 with hae | hnl
  · subst hae
    simpa [removeFrontmatter, List.cons_append, List.append_assoc] using hblock
  · have happ := removeFMAux_append a true
      ((['-', '-', '-', '\n'] ++ m ++ ['\n', '-', '-', '-', '\n']) ++ b) hnl ha2
    calc removeFrontmatter (a ++ (['-', '-', '-', '\n'] ++ m ++ ['\n', '-', '-', '-', '\n']) ++ b)
        = removeFMAux true (a ++ ((['-', '-', '-', '\n'] ++ m ++ ['\n', '-', '-', '-', '\n']) ++ b)) := by
          simp [removeFrontmatter, List.append_assoc]
      _ = a ++ removeFMAux true ((['-', '-', '-', '\n'] ++ m ++ ['\n', '-', '-', '-', '\n']) ++ b) :=
          happ
      _ = a ++ b := by
          rw [show (['-', '-', '-', '\n'] ++ m ++ ['\n', '-', '-', '-', '\n']) ++ b
              = '-' :: '-' :: '-' :: '\n' :: (m ++ ('\n' :: '-' :: '-' :: '-' :: '\n' :: b)) by
            simp [List.cons_append, List.append_assoc]]
          rw [hblock]

/-- Witness for C3 (amended): a block preceded by the line `x` is removed
exactly, leaving prefix and suffix intact. -/
theorem c3_witness :
    ((['x', '\n'] : Str) = [] ∨ lastIsNL ['x', '\n'] = true) ∧
    fmOpenerScan true ['x', '\n'] = false ∧
    containsSeq ['\n', '-', '-', '-'] ("t: 1".data) = false ∧
    removeFrontmatter
        (['x', '\n'] ++ (['-', '-', '-', '\n'] ++ ("t: 1".data) ++ ['\n', '-', '-', '-', '\n']) ++
          ("body".data)) = ['x', '\n'] ++ ("body".data) :=
  ⟨Or.inr (by decide), by decide, by decide,
    c3_theorem ['x', '\n'] ("t: 1".data) ("body".data) (Or.inr (by decide)) (by decide) (by decide)⟩

/-- Counterexample to C3 as stated: a `---`-delimited block that starts
at a line boundary but **not** at the very start of the document is not
left untouched — normalization removes it (the front-matter regex has
the `m` flag, so `^` matches any line start). -/
theorem c3_counterexample :
    cleanText true ("hello\n---\nfoo\n---\nworld".data) = ("hello\nworld".data) ∧
    ("hello\nworld".data : Str) ≠ ("hello\n---\nfoo\n---\nworld".data) := by
  decide

/-! ## Pass-identity lemmas on markup-free text (claim C9) -/

lemma removeFMAux_id : ∀ (s : Str) (b : Bool), fmOpenerScan b s = false →
    removeFMAux b s = s := by
  intro s
  induction s with
  | nil => intro b _; rfl
  | cons c rest ih =>
    intro b h
    have h1 := Bool.or_eq_false_iff.mp h
    have hcond : ¬ (b = true ∧ (fmMatchAt (c :: rest)).isSome = true) := by
      rintro ⟨hb, hsome⟩
      by_cases hpre : ['-', '-', '-', '\n'].isPrefixOf (c :: rest) = true
      · have := h1.1
        rw [hb, hpre] at this
        simp at this
      · have hnone : fmMatchAt (c :: rest) = none := by
          unfold fmMatchAt
          rw [if_neg hpre]
        rw [hnone] at hsome
        simp at hsome
    simp only [removeFMAux]
    rw [if_neg hcond, ih (decide (c = '\n')) h1.2]

lemma removeFencesGo_id : ∀ (s : Str), btick ∉ s → ∀ fuel, removeFencesGo fuel s = s := by
  intro s
  induction s with
  | nil => intro _ fuel; cases fuel <;> rfl
  | cons c rest ih =>
    intro h fuel
    cases fuel with
    | zero => rfl
    | succ f =>
      have hc : ¬ (c = btick) := fun hcc => h (by rw [hcc]; exact List.mem_cons_self _ _)
      have ht : btick ∉ rest := fun hm2 => h (List.mem_cons_of_mem c hm2)
      simp only [removeFencesGo]
      rw [if_neg (fun hcond => hc hcond.1), ih ht f]

lemma removeInlineGo_id : ∀ (s : Str), btick ∉ s → ∀ fuel, removeInlineGo fuel s = s := by
  intro s
  induction s with
  | nil => intro _ fuel; cases fuel <;> rfl
  | cons c rest ih =>
    intro h fuel
    cases fuel with
    | zero => rfl
    | succ f =>
      have hc : ¬ (c = btick) := fun hcc => h (by rw [hcc]; exact List.mem_cons_self _ _)
      have ht : btick ∉ rest := fun hm2 => h (List.mem_cons_of_mem c hm2)
      simp only [removeInlineGo]
      rw [if_neg (fun hcond => hc hcond.1), ih ht f]

lemma stripHeadersGo_id : ∀ (s : Str), '#' ∉ s → ∀ fuel b, stripHeadersGo fuel b s = s := by
  intro s
  induction s with
  | nil => intro _ fuel b; cases fuel <;> rfl
  | cons c rest ih =>
    intro h fuel b
    cases fuel with
    | zero => rfl
    | succ f =>
      have hc : ¬ (c = '#') := fun hcc => h (by rw [hcc]; exact List.mem_cons_self _ _)
      have ht : '#' ∉ rest := fun hm2 => h (List.mem_cons_of_mem c hm2)
      simp only [stripHeadersGo]
      rw [if_neg (fun hcond => hc hcond.2.1), ih ht f]

lemma stripBoldGo_id (d : Char) : ∀ (s : Str), d ∉ s → ∀ fuel, stripBoldGo d fuel s = s := by
  intro s
  induction s with
  | nil => intro _ fuel; cases fuel <;> rfl
  | cons c rest ih =>
    intro h fuel
    cases fuel with
    | zero => rfl
    | succ f =>
      have hc : ¬ (c = d) := fun hcc => h (by rw [← hcc]; exact List.mem_cons_self c rest)
      have ht : d ∉ rest := fun hm2 => h (List.mem_cons_of_mem c hm2)
      simp only [stripBoldGo]
      rw [if_neg (fun hcond => hc hcond.1), ih ht f]

lemma stripItalGo_id (d : Char) : ∀ (s : Str), d ∉ s → ∀ fuel, stripItalGo d fuel s = s := by
  intro s
  induction s with
  | nil => intro _ fuel; cases fuel <;> rfl
  | cons c rest ih =>
    intro h fuel
    cases fuel with
    | zero => rfl
    | succ f =>
      have hc : ¬ (c = d) := fun hcc => h (by rw [← hcc]; exact List.mem_cons_self c rest)
      have ht : d ∉ rest := fun hm2 => h (List.mem_cons_of_mem c hm2)
      simp only [stripItalGo]
      rw [if_neg (fun hcond => hc hcond.1), ih ht f]

lemma stripLinksGo_id : ∀ (s : Str), '[' ∉ s → ∀ fuel, stripLinksGo fuel s = s := by
  intro s
  induction s with
  | nil => intro _ fuel; cases fuel <;> rfl
  | cons c rest ih =>
    intro h fuel
    cases fuel with
    | zero => rfl
    | succ f =>
      have hc : ¬ (c = '[') := fun hcc => h (by rw [← hcc]; exact List.mem_cons_self c rest)
      have ht : '[' ∉ rest := fun hm2 => h (List.mem_cons_of_mem c hm2)
      simp only [stripLinksGo]
      rw [if_neg (fun hcond => hc hcond.1), ih ht f]

lemma stripWikiGo_id : ∀ (s : Str), '[' ∉ s → ∀ fuel, stripWikiGo fuel s = s := by
  intro s
  induction s with
  | nil => intro _ fuel; cases fuel <;> rfl
  | cons c rest ih =>
    intro h fuel
    cases fuel with
    | zero => rfl
    | succ f =>
      have hc : ¬ (c = '[') := fun hcc => h (by rw [← hcc]; exact List.mem_cons_self c rest)
      have ht : '[' ∉ rest := fun hm2 => h (List.mem_cons_of_mem c hm2)
      simp only [stripWikiGo]
      rw [if_neg (fun hcond => hc hcond.1), ih ht f]

lemma stripQuoteGo_id : ∀ (s : Str), '>' ∉ s → ∀ fuel b, stripQuoteGo fuel b s = s := by
  intro s
  induction s with
  | nil => intro _ fuel b; cases fuel <;> rfl
  | cons c rest ih =>
    intro h fuel b
    cases fuel with
    | zero => rfl
    | succ f =>
      have hc : ¬ (c = '>') := fun hcc => h (by rw [← hcc]; exact List.mem_cons_self c rest)
      have ht : '>' ∉ rest := fun hm2 => h (List.mem_cons_of_mem c hm2)
      simp only [stripQuoteGo]
      rw [if_neg (fun hcond => hc hcond.2.1), ih ht f]

lemma stripUListGo_id : ∀ (s : Str) (b : Bool), ulTrigger b s = false →
    ∀ fuel, stripUListGo fuel b s = s := by
  intro s
  induction s with
  | nil => intro b _ fuel; cases fuel <;> rfl
  | cons c rest ih =>
    intro b h fuel
    have h1 := Bool.or_eq_false_iff.mp h
    cases fuel with
    | zero => rfl
    | succ f =>
      have hcond : ¬ (b = true ∧ (c = '-' ∨ c = '*' ∨ c = '+') ∧
          rest.takeWhile isWS ≠ []) := by
        rintro ⟨hb, hcs, hw⟩
        have hx := h1.1
        rw [hb] at hx
        simp only [Bool.true_and, Bool.and_eq_false_iff] at hx
        rcases hx with hx | hx
        · simp [hcs] at hx
        · simp only [Bool.not_eq_false', List.isEmpty_iff] at hx
          exact hw hx
      simp only [stripUListGo]
      rw [if_neg hcond, ih (decide (c = '\n')) h1.2 f]

lemma stripOListGo_id : ∀ (s : Str) (b : Bool), olTrigger b s = false →
    ∀ fuel, stripOListGo fuel b s = s := by
  intro s
  induction s with
  | nil => intro b _ fuel; cases fuel <;> rfl
  | cons c rest ih =>
    intro b h fuel
    have h1 := Bool.or_eq_false_iff.mp h
    cases fuel with
    | zero => rfl
    | succ f =>
      have hcond : ¬ (b = true ∧ c.isDigit = true ∧
          (rest.dropWhile Char.isDigit).take 1 = ['.'] ∧
          ((rest.dropWhile Char.isDigit).drop 1).takeWhile isWS ≠ []) := by
        rintro ⟨hb, hdi, hdot, hw⟩
        have hx := h1.1
        rw [hb] at hx
        simp only [Bool.true_and, Bool.and_eq_false_iff] at hx
        rcases hx with (hx | hx) | hx
        · rw [hdi] at hx; simp at hx
        · simp [hdot] at hx
        · simp only [Bool.not_eq_false', List.isEmpty_iff] at hx
          exact hw hx
      simp only [stripOListGo]
      rw [if_neg hcond, ih (decide (c = '\n')) h1.2 f]

/-- Claim C9 (amended): normalizing a string that contains no markup
returns it unchanged up to trimming of leading and trailing whitespace.
(The claim's second reading — that `cleanText` applied to its own output
is always the identity — is false; see the counterexample.) -/
theorem c9_theorem (skip : Bool) (s : Str) (h : noMarkup s) :
    cleanText skip s = trimWS s := by
  obtain ⟨hbt, hst, hun, hbr, hhash, hgt, hfm, hul, hol⟩ := h
  have e1 : removeFrontmatter s = s := removeFMAux_id s true hfm
  have e2 : removeFences s = s := removeFencesGo_id s hbt s.length
  have e3 : removeInlineCode s = s := removeInlineGo_id s hbt s.length
  have p1 : stripHeaders s = s := stripHeadersGo_id s hhash s.length true
  have p2 : stripBold '*' s = s := stripBoldGo_id '*' s hst s.length
  have p3 : stripBold '_' s = s := stripBoldGo_id '_' s hun s.length
  have p4 : stripItal '*' s = s := stripItalGo_id '*' s hst s.length
  have p5 : stripItal '_' s = s := stripItalGo_id '_' s hun s.length
  have p6 : stripLinks s = s := stripLinksGo_id s hbr s.length
  have p7 : stripWiki s = s := stripWikiGo_id s hbr s.length
  have p8 : stripQuote s = s := stripQuoteGo_id s hgt s.length true
  have p9 : stripUList s = s := stripUListGo_id s true hul s.length
  have p10 : stripOList s = s := stripOListGo_id s true hol s.length
  cases skip <;>
    simp [cleanText, postCode, e1, e2, e3, p1, p2, p3, p4, p5, p6, p7, p8, p9, p10]

/-- Witness for C9 (amended): a concrete markup-free sentence. -/
theorem c9_witness :
    noMarkup ("hello world, one two.".data) ∧
    cleanText true ("hello world, one two.".data) = trimWS ("hello world, one two.".data) :=
  ⟨by decide, c9_theorem true ("hello world, one two.".data) (by decide)⟩

/-- Counterexample to C9 as stated: `cleanText` is not idempotent — on
`"# # title"` one pass yields `"# title"` (the regex consumed the first
heading marker only) and a second pass strips again. -/
theorem c9_counterexample :
    cleanText true (cleanText true ("# # title".data)) ≠ cleanText true ("# # title".data) := by
  decide

/-! ## Fenced-block and inline-code removal over well-formed markup (claim C4) -/

lemma tw_dw_split (p : Char → Bool) :
    ∀ (w : Str) (y : Char) (t : Str), (∀ x ∈ w, p x = true) → p y = false →
      (w ++ y :: t).takeWhile p = w ∧ (w ++ y :: t).dropWhile p = y :: t := by
  intro w
  induction w with
  | nil =>
    intro y t _ hy
    simp [List.takeWhile_cons, List.dropWhile_cons, hy]
  | cons x w' ih =>
    intro y t hw hy
    have hx : p x = true := hw x (List.mem_cons_self _ _)
    have ihh := ih y t (fun z hz => hw z (List.mem_cons_of_mem x hz)) hy
    simp [List.takeWhile_cons, List.dropWhile_cons, hx, ihh.1, ihh.2]

lemma RFG_zero (t : Str) : removeFencesGo 0 t = t := by cases t <;> rfl

lemma RFG_plain : ∀ (p : Str), btick ∉ p → ∀ (t : Str) (fuel : Nat),
    removeFencesGo fuel (p ++ t) = p ++ removeFencesGo (fuel - p.length) t := by
  intro p
  induction p with
  | nil => intro _ t fuel; simp
  | cons x p' ih =>
    intro h t fuel
    have hx : ¬ (x = btick) := fun hc => h (by rw [hc]; exact List.mem_cons_self _ _)
    have ht : btick ∉ p' := fun hm2 => h (List.mem_cons_of_mem x hm2)
    cases fuel with
    | zero =>
      simp only [List.cons_append, RFG_zero, Nat.zero_sub]
    | succ f =>
      simp only [List.cons_append, removeFencesGo, List.append_eq]
      rw [if_neg (fun hc => hx hc.1), ih ht t f]
      have harith : f + 1 - (x :: p').length = f - p'.length := by
        simp [List.length_cons]
      rw [harith]

lemma take2_ne_bb (w : Str) (t : Str) (hw : w ≠ []) (hb : btick ∉ w) :
    (w ++ btick :: t).take 2 ≠ [btick, btick] := by
  match w with
  | [] => exact absurd rfl hw
  | [w0] =>
    have : w0 ≠ btick := fun hc => hb (by rw [hc]; exact List.mem_cons_self _ _)
    simp [List.take]
    intro hc
    exact absurd hc this
  | w0 :: w1 :: w'' =>
    have : w0 ≠ btick := fun hc => hb (by rw [hc]; exact List.mem_cons_self _ _)
    simp [List.take]
    intro hc
    exact absurd hc this

lemma RFG_btick_step (t : Str) (h : t.take 2 ≠ [btick, btick]) (fuel : Nat) :
    removeFencesGo fuel (btick :: t) = btick :: removeFencesGo (fuel - 1) t := by
  cases fuel with
  | zero => rw [RFG_zero, Nat.zero_sub, RFG_zero]
  | succ f =>
    simp only [removeFencesGo]
    rw [if_neg (fun hc => h hc.2.1)]
    simp [Nat.succ_sub_one]

lemma RFG_code (w t : Str) (fuel : Nat) (hw : w ≠ []) (hb : btick ∉ w)
    (ht : t.take 2 ≠ [btick, btick]) :
    removeFencesGo fuel ((btick :: (w ++ [btick])) ++ t) =
      (btick :: (w ++ [btick])) ++ removeFencesGo (fuel - (w.length + 2)) t := by
  have hshape : (btick :: (w ++ [btick])) ++ t = btick :: (w ++ btick :: t) := by
    simp [List.cons_append, List.append_assoc]
  rw [hshape]
  have hstep := RFG_btick_step (w ++ btick :: t) (take2_ne_bb w t hw hb) fuel
  rw [hstep, RFG_plain w hb (btick :: t) (fuel - 1),
    RFG_btick_step t ht (fuel - 1 - w.length)]
  have harith : fuel - 1 - w.length - 1 = fuel - (w.length + 2) := by omega
  rw [harith]
  simp [List.cons_append, List.append_assoc]

lemma getLast?_cons_ne (x : Char) (m' : Str) (hne : m' ≠ [])
    (h : (x :: m').getLast? ≠ some btick) : m'.getLast? ≠ some btick := by
  match m' with
  | [] => exact absurd rfl hne
  | y :: m'' => simpa [List.getLast?_cons_cons] using h

lemma fenceClose_through : ∀ (m : Str) (t : Str),
    containsSeq [btick, btick, btick] m = false → m.getLast? ≠ some btick →
    fenceClose (m ++ (btick :: btick :: btick :: t)) = some t := by
  intro m
  induction m with
  | nil =>
    intro t _ _
    simp [fenceClose, List.take, List.drop]
  | cons x m' ih =>
    intro t hc hl
    have h1 := Bool.or_eq_false_iff.mp hc
    simp only [List.cons_append, fenceClose]
    rcases m' with _ | ⟨y, m''⟩
    · have hx : x ≠ btick := by
        intro hxx
        exact hl (by simp [hxx, List.getLast?_singleton])
      rw [if_neg (fun hcond => hx hcond.1)]
      simp [fenceClose, List.take, List.drop]
    · have hl' : (y :: m'').getLast? ≠ some btick := by
        simpa [List.getLast?_cons_cons] using hl
      by_cases hx : x = btick
      · subst hx
        have hne2 : ((y :: m'') ++ btick :: btick :: btick :: t).take 2 ≠ [btick, btick] := by
          rcases m'' with _ | ⟨z, m3⟩
          · have hy : y ≠ btick := by
              intro hyy
              exact hl' (by simp [hyy, List.getLast?_singleton])
            simp [List.take]
            intro h2
            exact absurd h2 hy
          · intro h2
            simp [List.take] at h2
            have hpre : [btick, btick, btick].isPrefixOf (btick :: y :: z :: m3) = true := by
              simp [List.isPrefixOf, h2.1, h2.2]
            rw [hpre] at h1
            simp at h1
        rw [if_neg (fun hcond => hne2 hcond.2)]
        exact ih t h1.2 hl'
      · rw [if_neg (fun hcond => hx hcond.1)]
        exact ih t h1.2 hl'

lemma RFG_fence (m t : Str) (fuel : Nat)
    (h3 : containsSeq [btick, btick, btick] m = false) (hl : m.getLast? ≠ some btick) :
    removeFencesGo (fuel + 1)
        ((btick :: btick :: btick :: (m ++ [btick, btick, btick])) ++ t) =
      removeFencesGo fuel t := by
  have hshape : (btick :: btick :: btick :: (m ++ [btick, btick, btick])) ++ t =
      btick :: btick :: btick :: (m ++ (btick :: btick :: btick :: t)) := by
    simp [List.cons_append, List.append_assoc]
  rw [hshape]
  have hfc := fenceClose_through m t h3 hl
  simp only [removeFencesGo]
  rw [if_pos]
  · simp only [List.drop_succ_cons, List.drop_zero, hfc, Option.getD_some]
  · refine ⟨by trivial, by simp [List.take], ?_⟩
    simp only [List.drop_succ_cons, List.drop_zero, hfc, Option.isSome_some]

lemma renderPieces_nil : renderPieces [] = [] := rfl

lemma renderPieces_cons (p : MdPiece) (ps : List MdPiece) :
    renderPieces (p :: ps) = renderPiece p ++ renderPieces ps := by
  simp [renderPieces, List.flatten_cons]

lemma goodSeq_head (p : MdPiece) (ps : List MdPiece) (h : goodSeq (p :: ps) = true) :
    pieceOKB p = true := by
  cases ps with
  | nil => simpa [goodSeq] using h
  | cons q qs =>
    simp only [goodSeq, Bool.and_eq_true] at h
    exact h.1.1

lemma goodSeq_tail (p : MdPiece) (ps : List MdPiece) (h : goodSeq (p :: ps) = true) :
    goodSeq ps = true := by
  cases ps with
  | nil => rfl
  | cons q qs =>
    simp only [goodSeq, Bool.and_eq_true] at h
    exact h.2

lemma goodSeq_adj (p q : MdPiece) (qs : List MdPiece)
    (h : goodSeq (p :: q :: qs) = true) : (isCodeSpan p && isFence q) = false := by
  simp only [goodSeq, Bool.and_eq_true] at h
  have h2 := h.1.2
  rwa [Bool.not_eq_true'] at h2

lemma pieceOKB_plain (p : Str) (h : pieceOKB (.plain p) = true) :
    p ≠ [] ∧ btick ∉ p := by
  simp only [pieceOKB, Bool.and_eq_true] at h
  constructor
  · simpa [List.isEmpty_iff] using h.1
  · have := h.2
    simp at this
    exact this

lemma pieceOKB_code (w : Str) (h : pieceOKB (.code w) = true) :
    w ≠ [] ∧ btick ∉ w := by
  simp only [pieceOKB, Bool.and_eq_true] at h
  constructor
  · simpa [List.isEmpty_iff] using h.1
  · have := h.2
    simp at this
    exact this

lemma pieceOKB_fence (m : Str) (h : pieceOKB (.fence m) = true) :
    containsSeq [btick, btick, btick] m = false ∧ m.getLast? ≠ some btick := by
  simp only [pieceOKB, Bool.and_eq_true] at h
  refine ⟨by simpa using h.1, ?_⟩
  have h2 := h.2
  intro hlast
  rw [hlast] at h2
  simp at h2

lemma goodSeq_all_ok : ∀ (ps : List MdPiece), goodSeq ps = true →
    ps.all pieceOKB = true := by
  intro ps
  induction ps with
  | nil => intro _; rfl
  | cons p ps' ih =>
    intro h
    simp only [List.all_cons, Bool.and_eq_true]
    exact ⟨goodSeq_head p ps' h, ih (goodSeq_tail p ps' h)⟩

lemma render_take2_ne (ps : List MdPiece)
    (hq : ∀ q qs, ps = q :: qs → isFence q = false)
    (hok : ps.all pieceOKB = true) : (renderPieces ps).take 2 ≠ [btick, btick] := by
  cases ps with
  | nil => simp [renderPieces_nil]
  | cons q qs =>
    have hokq : pieceOKB q = true := by
      simp only [List.all_cons, Bool.and_eq_true] at hok
      exact hok.1
    rw [renderPieces_cons]
    cases q with
    | plain r =>
      obtain ⟨hne, hni⟩ := pieceOKB_plain r hokq
      match r, hne with
      | r0 :: r', _ =>
        have hr0 : r0 ≠ btick := fun hc => hni (by rw [hc]; exact List.mem_cons_self _ _)
        intro h2
        simp only [renderPiece, List.cons_append, List.take] at h2
        injection h2 with h21 h22
        exact hr0 h21
    | code w =>
      obtain ⟨hne, hni⟩ := pieceOKB_code w hokq
      match w, hne with
      | w0 :: w', _ =>
        have hw0 : w0 ≠ btick := fun hc => hni (by rw [hc]; exact List.mem_cons_self _ _)
        intro h2
        simp only [renderPiece, List.cons_append, List.take] at h2
        simp at h2
        exact hw0 h2
    | fence m =>
      have := hq (.fence m) qs rfl
      simp [isFence] at this

lemma RFG_render : ∀ (ps : List MdPiece) (fuel : Nat), goodSeq ps = true →
    (renderPieces ps).length ≤ fuel →
    removeFencesGo fuel (renderPieces ps) =
      renderPieces (ps.filter (fun p => !isFence p)) := by
  intro ps
  induction ps with
  | nil =>
    intro fuel _ _
    rw [renderPieces_nil]
    cases fuel <;> rfl
  | cons p ps' ih =>
    intro fuel hg hlen
    have hokp := goodSeq_head p ps' hg
    have hgt := goodSeq_tail p ps' hg
    rw [renderPieces_cons] at hlen ⊢
    cases p with
    | plain r =>
      obtain ⟨hne, hni⟩ := pieceOKB_plain r hokp
      rw [show renderPiece (MdPiece.plain r) = r from rfl] at hlen ⊢
      rw [RFG_plain r hni (renderPieces ps') fuel]
      rw [ih (fuel - r.length) hgt (by
        rw [List.length_append] at hlen
        omega)]
      simp [List.filter_cons, isFence, renderPieces_cons, renderPiece]
    | code w =>
      obtain ⟨hne, hni⟩ := pieceOKB_code w hokp
      have htake : (renderPieces ps').take 2 ≠ [btick, btick] := by
        refine render_take2_ne ps' ?_ (goodSeq_all_ok ps' hgt)
        intro q qs hqs
        subst hqs
        have hadj := goodSeq_adj (.code w) q qs hg
        simpa [isCodeSpan] using hadj
      rw [show renderPiece (MdPiece.code w) = btick :: (w ++ [btick]) from rfl] at hlen ⊢
      rw [RFG_code w (renderPieces ps') fuel hne hni htake]
      rw [ih (fuel - (w.length + 2)) hgt (by
        rw [List.length_append] at hlen
        simp only [List.length_cons, List.length_append, List.length_singleton] at hlen
        omega)]
      simp [List.filter_cons, isFence, renderPieces_cons, renderPiece]
    | fence m =>
      obtain ⟨h3, hlast⟩ := pieceOKB_fence m hokp
      rw [show renderPiece (MdPiece.fence m)
          = btick :: btick :: btick :: (m ++ [btick, btick, btick]) from rfl] at hlen ⊢
      cases fuel with
      | zero =>
        exfalso
        simp only [List.length_append, List.length_cons] at hlen
        omega
      | succ f =>
        rw [RFG_fence m (renderPieces ps') f h3 hlast]
        rw [ih f hgt (by
          simp only [List.length_append, List.length_cons] at hlen
          omega)]
        simp [List.filter_cons, isFence]

lemma RIG_zero (t : Str) : removeInlineGo 0 t = t := by cases t <;> rfl

lemma RIG_plain : ∀ (p : Str), btick ∉ p → ∀ (t : Str) (fuel : Nat),
    removeInlineGo fuel (p ++ t) = p ++ removeInlineGo (fuel - p.length) t := by
  intro p
  induction p with
  | nil => intro _ t fuel; simp
  | cons x p' ih =>
    intro h t fuel
    have hx : ¬ (x = btick) := fun hc => h (by rw [hc]; exact List.mem_cons_self _ _)
    have ht : btick ∉ p' := fun hm2 => h (List.mem_cons_of_mem x hm2)
    cases fuel with
    | zero =>
      simp only [List.cons_append, RIG_zero, Nat.zero_sub]
    | succ f =>
      simp only [List.cons_append, removeInlineGo, List.append_eq]
      rw [if_neg (fun hc => hx hc.1), ih ht t f]
      have harith : f + 1 - (x :: p').length = f - p'.length := by
        simp [List.length_cons]
      rw [harith]

lemma RIG_code (w t : Str) (fuel : Nat) (hw : w ≠ []) (hb : btick ∉ w) :
    removeInlineGo (fuel + 1) ((btick :: (w ++ [btick])) ++ t) = removeInlineGo fuel t := by
  have hshape : (btick :: (w ++ [btick])) ++ t = btick :: (w ++ btick :: t) := by
    simp [List.cons_append, List.append_assoc]
  rw [hshape]
  have hsplit := tw_dw_split (fun x => decide (x ≠ btick)) w btick t
    (fun x hx => by
      simp only [decide_eq_true_eq]
      exact fun hc => hb (hc ▸ hx))
    (by simp)
  simp only [removeInlineGo]
  rw [if_pos]
  · rw [hsplit.2]
    rfl
  · refine ⟨by trivial, ?_, ?_⟩
    · rw [hsplit.1]; exact hw
    · rw [hsplit.2]; simp

lemma all_filter (f g : MdPiece → Bool) (ps : List MdPiece) (h : ps.all f = true) :
    (ps.filter g).all f = true := by
  rw [List.all_eq_true] at h ⊢
  intro x hx
  exact h x (List.mem_filter.mp hx).1

lemma filter_all_self (g : MdPiece → Bool) (ps : List MdPiece) :
    (ps.filter g).all g = true := by
  rw [List.all_eq_true]
  intro x hx
  exact (List.mem_filter.mp hx).2

lemma RIG_render : ∀ (ps : List MdPiece) (fuel : Nat), ps.all pieceOKB = true →
    ps.all (fun p => !isFence p) = true → (renderPieces ps).length ≤ fuel →
    removeInlineGo fuel (renderPieces ps) = renderPieces (ps.filter isPlainPiece) := by
  intro ps
  induction ps with
  | nil =>
    intro fuel _ _ _
    rw [renderPieces_nil]
    cases fuel <;> rfl
  | cons p ps' ih =>
    intro fuel hok hnf hlen
    simp only [List.all_cons, Bool.and_eq_true] at hok hnf
    rw [renderPieces_cons] at hlen ⊢
    cases p with
    | plain r =>
      obtain ⟨hne, hni⟩ := pieceOKB_plain r hok.1
      rw [show renderPiece (MdPiece.plain r) = r from rfl] at hlen ⊢
      rw [RIG_plain r hni (renderPieces ps') fuel]
      rw [ih (fuel - r.length) hok.2 hnf.2 (by
        rw [List.length_append] at hlen
        omega)]
      simp [List.filter_cons, isPlainPiece, renderPieces_cons, renderPiece]
    | code w =>
      obtain ⟨hne, hni⟩ := pieceOKB_code w hok.1
      rw [show renderPiece (MdPiece.code w) = btick :: (w ++ [btick]) from rfl] at hlen ⊢
      cases fuel with
      | zero =>
        exfalso
        simp only [List.length_append, List.length_cons] at hlen
        omega
      | succ f =>
        rw [RIG_code w (renderPieces ps') f hne hni]
        rw [ih f hok.2 hnf.2 (by
          simp only [List.length_append, List.length_cons, List.length_singleton] at hlen
          omega)]
        simp [List.filter_cons, isPlainPiece]
    | fence m =>
      exfalso
      have := hnf.1
      simp [isFence] at this

lemma render_plain_no_btick : ∀ (ps : List MdPiece), ps.all pieceOKB = true →
    ps.all isPlainPiece = true → btick ∉ renderPieces ps := by
  intro ps
  induction ps with
  | nil => intro _ _; rw [renderPieces_nil]; simp
  | cons p ps' ih =>
    intro hok hpl
    simp only [List.all_cons, Bool.and_eq_true] at hok hpl
    cases p with
    | plain r =>
      obtain ⟨_, hni⟩ := pieceOKB_plain r hok.1
      rw [renderPieces_cons, show renderPiece (MdPiece.plain r) = r from rfl]
      intro hmem
      rcases List.mem_append.mp hmem with hm | hm
      · exact hni hm
      · exact ih hok.2 hpl.2 hm
    | code w => simp [isPlainPiece] at hpl
    | fence m => simp [isPlainPiece] at hpl

/-! ## Every post-code pass only deletes characters (sublist lemmas) -/

lemma stripHeadersGo_sublist : ∀ (fuel : Nat) (b : Bool) (s : Str),
    List.Sublist (stripHeadersGo fuel b s) s := by
  intro fuel
  induction fuel with
  | zero => intro b s; cases s <;> simp [stripHeadersGo]
  | succ f ih =>
    intro b s
    cases s with
    | nil => simp [stripHeadersGo]
    | cons c rest =>
      simp only [stripHeadersGo]
      by_cases hcond : (b = true ∧ c = '#' ∧ (rest.takeWhile (· = '#')).length ≤ 5 ∧
          (rest.dropWhile (· = '#')).takeWhile isWS ≠ [])
      · rw [if_pos hcond]
        have h1 : List.Sublist
            (stripHeadersGo f false
              (((rest.dropWhile (· = '#')).dropWhile isWS).dropWhile (· ≠ '\n')))
            (((rest.dropWhile (· = '#')).dropWhile isWS).dropWhile (· ≠ '\n')) := ih _ _
        have h2 := h1.append_left
          (((rest.dropWhile (· = '#')).dropWhile isWS).takeWhile (· ≠ '\n'))
        rw [List.takeWhile_append_dropWhile] at h2
        exact h2.trans ((List.dropWhile_sublist isWS).trans
          ((List.dropWhile_sublist _).trans (List.sublist_cons_self c rest)))
      · rw [if_neg hcond]
        exact (ih _ rest).cons₂ c

lemma stripBoldGo_sublist (d : Char) : ∀ (fuel : Nat) (s : Str),
    List.Sublist (stripBoldGo d fuel s) s := by
  intro fuel
  induction fuel with
  | zero => intro s; cases s <;> simp [stripBoldGo]
  | succ f ih =>
    intro s
    cases s with
    | nil => simp [stripBoldGo]
    | cons c rest =>
      simp only [stripBoldGo]
      by_cases hcond : (c = d ∧ rest.take 1 = [d] ∧ (rest.drop 1).takeWhile (· ≠ d) ≠ [] ∧
          ((rest.drop 1).dropWhile (· ≠ d)).tail.take 1 = [d])
      · rw [if_pos hcond]
        have h1 : List.Sublist (stripBoldGo d f (((rest.drop 1).dropWhile (· ≠ d)).drop 2))
            ((rest.drop 1).dropWhile (· ≠ d)) := (ih _).trans (List.drop_sublist _ _)
        have h2 := h1.append_left ((rest.drop 1).takeWhile (· ≠ d))
        rw [List.takeWhile_append_dropWhile] at h2
        exact h2.trans ((List.drop_sublist 1 rest).trans (List.sublist_cons_self c rest))
      · rw [if_neg hcond]
        exact (ih rest).cons₂ c

lemma stripItalGo_sublist (d : Char) : ∀ (fuel : Nat) (s : Str),
    List.Sublist (stripItalGo d fuel s) s := by
  intro fuel
  induction fuel with
  | zero => intro s; cases s <;> simp [stripItalGo]
  | succ f ih =>
    intro s
    cases s with
    | nil => simp [stripItalGo]
    | cons c rest =>
      simp only [stripItalGo]
      by_cases hcond : (c = d ∧ rest.takeWhile (· ≠ d) ≠ [] ∧ rest.dropWhile (· ≠ d) ≠ [])
      · rw [if_pos hcond]
        have h1 : List.Sublist (stripItalGo d f (rest.dropWhile (· ≠ d)).tail)
            (rest.dropWhile (· ≠ d)) := (ih _).trans (List.tail_sublist _)
        have h2 := h1.append_left (rest.takeWhile (· ≠ d))
        rw [List.takeWhile_append_dropWhile] at h2
        exact h2.trans (List.sublist_cons_self c rest)
      · rw [if_neg hcond]
        exact (ih rest).cons₂ c

lemma stripLinksGo_sublist : ∀ (fuel : Nat) (s : Str),
    List.Sublist (stripLinksGo fuel s) s := by
  intro fuel
  induction fuel with
  | zero => intro s; cases s <;> simp [stripLinksGo]
  | succ f ih =>
    intro s
    cases s with
    | nil => simp [stripLinksGo]
    | cons c rest =>
      simp only [stripLinksGo]
      by_cases hcond : (c = '[' ∧ rest.takeWhile (· ≠ ']') ≠ [] ∧
          rest.dropWhile (· ≠ ']') ≠ [] ∧ (rest.dropWhile (· ≠ ']')).tail.take 1 = ['('] ∧
          ((rest.dropWhile (· ≠ ']')).tail.drop 1).takeWhile (· ≠ ')') ≠ [] ∧
          ((rest.dropWhile (· ≠ ']')).tail.drop 1).dropWhile (· ≠ ')') ≠ [])
      · rw [if_pos hcond]
        have h1 : List.Sublist
            (stripLinksGo f ((((rest.dropWhile (· ≠ ']')).tail.drop 1).dropWhile (· ≠ ')')).tail))
            (rest.dropWhile (· ≠ ']')) :=
          (ih _).trans ((List.tail_sublist _).trans ((List.dropWhile_sublist _).trans
            ((List.drop_sublist _ _).trans (List.tail_sublist _))))
        have h2 := h1.append_left (rest.takeWhile (· ≠ ']'))
        rw [List.takeWhile_append_dropWhile] at h2
        exact h2.trans (List.sublist_cons_self c rest)
      · rw [if_neg hcond]
        exact (ih rest).cons₂ c

lemma wlCore_sublist (s : Str) (l t : Str) (h : wlCore s = some (l, t)) :
    List.Sublist (l ++ t) s := by
  unfold wlCore at h
  by_cases hcond : (s.takeWhile (· ≠ ']') ≠ [] ∧ s.dropWhile (· ≠ ']') ≠ [] ∧
      (s.dropWhile (· ≠ ']')).tail.take 1 = [']'])
  · rw [if_pos hcond] at h
    injection h with hpair
    have hl : l = s.takeWhile (· ≠ ']') := (congrArg Prod.fst hpair).symm
    have ht : t = (s.dropWhile (· ≠ ']')).tail.drop 1 := (congrArg Prod.snd hpair).symm
    subst hl
    subst ht
    have h1 : List.Sublist ((s.dropWhile (· ≠ ']')).tail.drop 1) (s.dropWhile (· ≠ ']')) :=
      (List.drop_sublist _ _).trans (List.tail_sublist _)
    have h2 := h1.append_left (s.takeWhile (· ≠ ']'))
    rw [List.takeWhile_append_dropWhile] at h2
    exact h2
  · rw [if_neg hcond] at h
    exact absurd h (by simp)

lemma wlMatch_sublist (s : Str) (l t : Str) (h : wlMatch s = some (l, t)) :
    List.Sublist (l ++ t) s := by
  unfold wlMatch at h
  by_cases hcond : ((s.dropWhile (fun c => ¬(c = ']' ∨ c = '|'))).take 1 = ['|'] ∧
      (wlCore (s.dropWhile (fun c => ¬(c = ']' ∨ c = '|'))).tail).isSome = true)
  · rw [if_pos hcond] at h
    have h1 := wlCore_sublist _ l t h
    exact h1.trans ((List.tail_sublist _).trans (List.dropWhile_sublist _))
  · rw [if_neg hcond] at h
    exact wlCore_sublist s l t h

lemma stripWikiGo_sublist : ∀ (fuel : Nat) (s : Str),
    List.Sublist (stripWikiGo fuel s) s := by
  intro fuel
  induction fuel with
  | zero => intro s; cases s <;> simp [stripWikiGo]
  | succ f ih =>
    intro s
    cases s with
    | nil => simp [stripWikiGo]
    | cons c rest =>
      simp only [stripWikiGo]
      by_cases hcond : (c = '[' ∧ rest.take 1 = ['['] ∧ (wlMatch (rest.drop 1)).isSome = true)
      · rw [if_pos hcond]
        obtain ⟨r, hr⟩ := Option.isSome_iff_exists.mp hcond.2.2
        rw [hr]
        simp only [Option.getD_some]
        have hwl := wlMatch_sublist (rest.drop 1) r.1 r.2 (by rw [hr])
        have h1 : List.Sublist (stripWikiGo f r.2) r.2 := ih _
        have h2 := h1.append_left r.1
        exact h2.trans (hwl.trans ((List.drop_sublist 1 rest).trans
          (List.sublist_cons_self c rest)))
      · rw [if_neg hcond]
        exact (ih rest).cons₂ c

lemma stripQuoteGo_sublist : ∀ (fuel : Nat) (b : Bool) (s : Str),
    List.Sublist (stripQuoteGo fuel b s) s := by
  intro fuel
  induction fuel with
  | zero => intro b s; cases s <;> simp [stripQuoteGo]
  | succ f ih =>
    intro b s
    cases s with
    | nil => simp [stripQuoteGo]
    | cons c rest =>
      simp only [stripQuoteGo]
      by_cases hcond : (b = true ∧ c = '>' ∧ rest.takeWhile isWS ≠ [])
      · rw [if_pos hcond]
        exact ((ih _ _).trans (List.dropWhile_sublist _)).trans
          ((List.sublist_cons_self c rest))
      · rw [if_neg hcond]
        exact (ih _ rest).cons₂ c

lemma stripUListGo_sublist : ∀ (fuel : Nat) (b : Bool) (s : Str),
    List.Sublist (stripUListGo fuel b s) s := by
  intro fuel
  induction fuel with
  | zero => intro b s; cases s <;> simp [stripUListGo]
  | succ f ih =>
    intro b s
    cases s with
    | nil => simp [stripUListGo]
    | cons c rest =>
      simp only [stripUListGo]
      by_cases hcond : (b = true ∧ (c = '-' ∨ c = '*' ∨ c = '+') ∧ rest.takeWhile isWS ≠ [])
      · rw [if_pos hcond]
        exact ((ih _ _).trans (List.dropWhile_sublist _)).trans
          ((List.sublist_cons_self c rest))
      · rw [if_neg hcond]
        exact (ih _ rest).cons₂ c

lemma stripOListGo_sublist : ∀ (fuel : Nat) (b : Bool) (s : Str),
    List.Sublist (stripOListGo fuel b s) s := by
  intro fuel
  induction fuel with
  | zero => intro b s; cases s <;> simp [stripOListGo]
  | succ f ih =>
    intro b s
    cases s with
    | nil => simp [stripOListGo]
    | cons c rest =>
      simp only [stripOListGo]
      by_cases hcond : (b = true ∧ c.isDigit = true ∧
          (rest.dropWhile Char.isDigit).take 1 = ['.'] ∧
          ((rest.dropWhile Char.isDigit).drop 1).takeWhile isWS ≠ [])
      · rw [if_pos hcond]
        exact ((ih _ _).trans ((List.dropWhile_sublist _).trans
          ((List.drop_sublist _ _).trans (List.dropWhile_sublist _)))).trans
          (List.sublist_cons_self c rest)
      · rw [if_neg hcond]
        exact (ih _ rest).cons₂ c

lemma trimWS_sublist (s : Str) : List.Sublist (trimWS s) s := by
  unfold trimWS
  have h1 : List.Sublist ((s.dropWhile isWS).reverse.dropWhile isWS)
      (s.dropWhile isWS).reverse := List.dropWhile_sublist _
  have h2 := h1.reverse
  rw [List.reverse_reverse] at h2
  exact h2.trans (List.dropWhile_sublist _)

lemma postCode_sublist (t : Str) : List.Sublist (postCode t) t := by
  unfold postCode stripOList stripUList stripQuote stripWiki stripLinks stripItal
    stripBold stripHeaders
  exact (trimWS_sublist _).trans ((stripOListGo_sublist _ _ _).trans
    ((stripUListGo_sublist _ _ _).trans ((stripQuoteGo_sublist _ _ _).trans
    ((stripWikiGo_sublist _ _).trans ((stripLinksGo_sublist _ _).trans
    ((stripItalGo_sublist _ _ _).trans ((stripItalGo_sublist _ _ _).trans
    ((stripBoldGo_sublist _ _ _).trans ((stripBoldGo_sublist _ _ _).trans
    (stripHeadersGo_sublist _ _ _))))))))))

/-- Claim C4 (amended): with `skipCodeBlocks` enabled, no backtick
survives normalization **provided the input's backticks are well-formed**:
after front-matter removal the text is a sequence of backtick-free plain
segments, inline code spans, and fenced blocks (whose bodies contain no
```` ``` ```` and do not end in a backtick), with no inline span directly
preceding a fence.  An unpaired backtick is not removed (see the
counterexample), so the claim's unconditional form fails. -/
theorem c4_theorem (s : Str) (ps : List MdPiece)
    (hg : goodSeq ps = true) (hr : removeFrontmatter s = renderPieces ps) :
    btick ∉ cleanText true s := by
  have h1 : removeFences (renderPieces ps) =
      renderPieces (ps.filter (fun p => !isFence p)) :=
    RFG_render ps (renderPieces ps).length hg (le_refl _)
  have hok1 : (ps.filter (fun p => !isFence p)).all pieceOKB = true :=
    all_filter _ _ ps (goodSeq_all_ok ps hg)
  have hnf1 : (ps.filter (fun p => !isFence p)).all (fun p => !isFence p) = true :=
    filter_all_self _ ps
  have h2 : removeInlineCode (renderPieces (ps.filter (fun p => !isFence p))) =
      renderPieces ((ps.filter (fun p => !isFence p)).filter isPlainPiece) :=
    RIG_render _ _ hok1 hnf1 (le_refl _)
  have hok2 : ((ps.filter (fun p => !isFence p)).filter isPlainPiece).all pieceOKB = true :=
    all_filter _ _ _ hok1
  have hpl2 : ((ps.filter (fun p => !isFence p)).filter isPlainPiece).all isPlainPiece = true :=
    filter_all_self _ _
  have hnb := render_plain_no_btick _ hok2 hpl2
  have hct : cleanText true s =
      postCode (renderPieces ((ps.filter (fun p => !isFence p)).filter isPlainPiece)) := by
    simp only [cleanText, if_true]
    rw [hr, h1, h2]
  rw [hct]
  intro hmem
  exact hnb ((postCode_sublist _).mem hmem)

/-- Witness for C4 (amended): a note with one fenced block and one inline
span comes out backtick-free. -/
theorem c4_witness :
    goodSeq [MdPiece.plain ("intro ".data), MdPiece.fence ("code block".data),
      MdPiece.plain (" mid ".data), MdPiece.code ("x".data),
      MdPiece.plain (" end".data)] = true ∧
    removeFrontmatter ("intro ```code block``` mid `x` end".data) =
      renderPieces [MdPiece.plain ("intro ".data), MdPiece.fence ("code block".data),
        MdPiece.plain (" mid ".data), MdPiece.code ("x".data),
        MdPiece.plain (" end".data)] ∧
    btick ∉ cleanText true ("intro ```code block``` mid `x` end".data) :=
  ⟨by decide, by decide,
    c4_theorem ("intro ```code block``` mid `x` end".data)
      [MdPiece.plain ("intro ".data), MdPiece.fence ("code block".data),
        MdPiece.plain (" mid ".data), MdPiece.code ("x".data),
        MdPiece.plain (" end".data)] (by decide) (by decide)⟩

/-- Counterexample to C4 as stated: an unpaired backtick survives
normalization even with `skipCodeBlocks` enabled — neither the fenced
regex nor the inline regex matches `"`x"`. -/
theorem c4_counterexample : btick ∈ cleanText true ("`x".data) := by decide
